import Mathlib

/-!
# Verification of the genkubessl certificate topology and reconciliation engine

A shallow embedding of the Go sources of `stefan-kiss/genkubessl`
(packages `kubecerts`, `kubekeys`, `sslutil`, `util`, `storage`) together
with proofs and refutations of the specification claims.

Modelling conventions:
* Go slices and maps are modelled as Lean lists; a Go `map` that is built by
  insertion is modelled as an insertion-ordered association list (one
  admissible iteration order of the Go map).  Where a claim depends on the
  *unspecified* iteration order of a Go map, the output is characterised by a
  predicate over all admissible enumerations.
* PEM blobs, private keys and parsed certificates are modelled abstractly:
  a private key is a `Nat` identifier, a certificate records exactly the
  fields the repository reads or writes, and signatures are modelled by
  recording the signing key.  PEM encode/parse round-trips by construction,
  matching the external library contract assumed by the code.
* `fmt.Printf` logging is dropped; `panic` and fatal errors are modelled as
  an error component of the result.
-/

namespace GenKubeSsl

/-! ## util.UniqueStringSliceCmp (src/util/util.go)

The Go function builds one map `cmpMap` from both slices, inserting
`src[idx]` and `dst[idx]` at each index, exiting early when the map outgrows
`len(src)` and finally requiring `len(cmpMap) == len(src)`.
The map is modelled as an insertion-ordered duplicate-free list of keys. -/

/-- Insert a key into the model of a Go `map` (insertion order kept). -/
def mapInsert (m : List String) (k : String) : List String :=
  if k ∈ m then m else m ++ [k]

/-- The indexed loop of `UniqueStringSliceCmp`: at each index insert the
`src` element then the `dst` element, fail early if the map has more than
`n = len(src)` keys, and at the end require exactly `n` keys. -/
def uniqueCmpLoop (n : Nat) : List String → List (String × String) → Bool
  | m, [] => m.length == n
  | m, (s, d) :: rest =>
    let m1 := mapInsert (mapInsert m s) d
    if n < m1.length then false else uniqueCmpLoop n m1 rest

/-- `util.UniqueStringSliceCmp`, with `true` standing for `err == nil`. -/
def UniqueStringSliceCmp (src dst : List String) : Bool :=
  if src.length ≠ dst.length then false
  else uniqueCmpLoop src.length [] (src.zip dst)

/-- The fold that the loop performs on the map, ignoring the early exit. -/
def uniqueCmpFold (m : List String) (l : List (String × String)) : List String :=
  l.foldl (fun acc p => mapInsert (mapInsert acc p.1) p.2) m

theorem mapInsert_length_le (m : List String) (k : String) :
    m.length ≤ (mapInsert m k).length := by
  unfold mapInsert
  split
  · exact Nat.le_refl _
  · simp

theorem mapInsert_toFinset (m : List String) (k : String) :
    (mapInsert m k).toFinset = insert k m.toFinset := by
  unfold mapInsert
  split
  · next h => simp [List.toFinset_append, Finset.insert_eq_self.mpr (List.mem_toFinset.mpr h)]
  · simp [List.toFinset_append, Finset.union_comm, Finset.insert_eq]

theorem mapInsert_nodup {m : List String} (h : m.Nodup) (k : String) :
    (mapInsert m k).Nodup := by
  unfold mapInsert
  split
  · exact h
  · next hk => simpa [List.nodup_append, h] using hk

theorem uniqueCmpFold_length_le (m : List String) (l : List (String × String)) :
    m.length ≤ (uniqueCmpFold m l).length := by
  induction l generalizing m with
  | nil => exact Nat.le_refl _
  | cons p rest ih =>
    calc m.length ≤ (mapInsert (mapInsert m p.1) p.2).length :=
          Nat.le_trans (mapInsert_length_le _ _) (mapInsert_length_le _ _)
      _ ≤ _ := ih _

theorem uniqueCmpFold_nodup {m : List String} (h : m.Nodup) (l : List (String × String)) :
    (uniqueCmpFold m l).Nodup := by
  induction l generalizing m with
  | nil => exact h
  | cons p rest ih => exact ih (mapInsert_nodup (mapInsert_nodup h _) _)

theorem uniqueCmpFold_toFinset (m : List String) (l : List (String × String)) :
    (uniqueCmpFold m l).toFinset =
      m.toFinset ∪ (l.map Prod.fst).toFinset ∪ (l.map Prod.snd).toFinset := by
  induction l generalizing m with
  | nil => simp [uniqueCmpFold]
  | cons p rest ih =>
    show (uniqueCmpFold (mapInsert (mapInsert m p.1) p.2) rest).toFinset = _
    rw [ih, mapInsert_toFinset, mapInsert_toFinset]
    simp only [List.map_cons, List.toFinset_cons]
    ext x
    simp only [Finset.mem_union, Finset.mem_insert]
    tauto

theorem uniqueCmpLoop_eq {m : List String} (h : m.Nodup) (n : Nat)
    (l : List (String × String)) :
    uniqueCmpLoop n m l = true ↔ (uniqueCmpFold m l).length = n := by
  induction l generalizing m with
  | nil => simp [uniqueCmpLoop, uniqueCmpFold]
  | cons p rest ih =>
    show (if n < (mapInsert (mapInsert m p.1) p.2).length then false
          else uniqueCmpLoop n (mapInsert (mapInsert m p.1) p.2) rest) = true ↔
      (uniqueCmpFold (mapInsert (mapInsert m p.1) p.2) rest).length = n
    split
    · next hlt =>
      have hle := uniqueCmpFold_length_le (mapInsert (mapInsert m p.1) p.2) rest
      constructor
      · intro hfalse
        exact absurd hfalse (by simp)
      · intro heq
        omega
    · exact ih (mapInsert_nodup (mapInsert_nodup h _) _)

/-- Characterisation of the comparator: it accepts exactly when the two
lists have the same length and the union of their element sets has exactly
that many distinct members. -/
theorem uniqueStringSliceCmp_iff (src dst : List String) :
    UniqueStringSliceCmp src dst = true ↔
      src.length = dst.length ∧ (src.toFinset ∪ dst.toFinset).card = src.length := by
  unfold UniqueStringSliceCmp
  split
  · next hne =>
    constructor
    · intro h
      exact absurd h (by simp)
    · intro h
      exact absurd h.1 hne
  · next heq =>
    have hlen : src.length = dst.length := by
      by_contra hc
      exact heq hc
    rw [uniqueCmpLoop_eq List.nodup_nil]
    have hcard : (uniqueCmpFold [] (src.zip dst)).length =
        (src.toFinset ∪ dst.toFinset).card := by
      have hnd := uniqueCmpFold_nodup List.nodup_nil (src.zip dst)
      have : (uniqueCmpFold [] (src.zip dst)).toFinset = src.toFinset ∪ dst.toFinset := by
        rw [uniqueCmpFold_toFinset]
        rw [List.map_fst_zip _ _ (Nat.le_of_eq hlen),
            List.map_snd_zip _ _ (Nat.le_of_eq hlen.symm)]
        simp
      rw [← this, List.card_toFinset, hnd.dedup]
    rw [hcard]
    exact ⟨fun h => ⟨hlen, h⟩, fun h => h.2⟩

theorem uniqueStringSliceCmp_perm_left (src src' dst : List String)
    (h : src.Perm src') :
    UniqueStringSliceCmp src dst = UniqueStringSliceCmp src' dst := by
  have h1 := uniqueStringSliceCmp_iff src dst
  have h2 := uniqueStringSliceCmp_iff src' dst
  have hlen := h.length_eq
  have hfin := List.toFinset_eq_of_perm _ _ h
  cases hb : UniqueStringSliceCmp src dst with
  | true =>
    have := h1.mp hb
    exact (h2.mpr (by rw [← hlen, ← hfin]; exact this)).symm
  | false =>
    cases hb' : UniqueStringSliceCmp src' dst with
    | true =>
      have := h2.mp hb'
      rw [← hb, h1.mpr (by rw [hlen, hfin]; exact this)]
    | false => rfl

theorem uniqueStringSliceCmp_perm_right (src dst dst' : List String)
    (h : dst.Perm dst') :
    UniqueStringSliceCmp src dst = UniqueStringSliceCmp src dst' := by
  have h1 := uniqueStringSliceCmp_iff src dst
  have h2 := uniqueStringSliceCmp_iff src dst'
  have hlen := h.length_eq
  have hfin := List.toFinset_eq_of_perm _ _ h
  cases hb : UniqueStringSliceCmp src dst with
  | true =>
    have := h1.mp hb
    exact (h2.mpr (by rw [← hlen, ← hfin]; exact this)).symm
  | false =>
    cases hb' : UniqueStringSliceCmp src dst' with
    | true =>
      have := h2.mp hb'
      rw [← hb, h1.mpr (by rw [hlen, hfin]; exact this)]
    | false => rfl

/-- **C5** (counterexample): as stated, the claim fails on lists with a
repeated element.  `UniqueStringSliceCmp ["a","a"] ["a","b"]` accepts —
lengths are `2 = 2` and the union `{a, b}` has two members — yet the two
lists have identical cardinality and *different* element sets, so the claim
"accepts exactly when both lists have identical cardinality and identical
element sets" is violated in the only-if direction. -/
theorem C5_counterexample :
    UniqueStringSliceCmp ["a", "a"] ["a", "b"] = true ∧
      (["a", "a"] : List String).length = (["a", "b"] : List String).length ∧
      (["a", "a"] : List String).toFinset ≠ (["a", "b"] : List String).toFinset := by
  refine ⟨by decide, by decide, ?_⟩
  intro h
  have : ("b" : String) ∈ (["a", "a"] : List String).toFinset := by
    rw [h]; decide
  simp at this

/-- **C5** (amended): on duplicate-free lists — which is what the
reconciliation engine feeds the comparator from the descriptor side — the
comparison accepts exactly when both lists have identical cardinality and
identical element sets; and on arbitrary lists the verdict is invariant
under any permutation of either list. -/
theorem C5_uniqueCmp_is_set_comparison :
    (∀ src dst : List String, src.Nodup → dst.Nodup →
      (UniqueStringSliceCmp src dst = true ↔
        src.length = dst.length ∧ src.toFinset = dst.toFinset))
    ∧ (∀ src src' dst : List String, src.Perm src' →
        UniqueStringSliceCmp src dst = UniqueStringSliceCmp src' dst)
    ∧ (∀ src dst dst' : List String, dst.Perm dst' →
        UniqueStringSliceCmp src dst = UniqueStringSliceCmp src dst') := by
  refine ⟨?_, uniqueStringSliceCmp_perm_left, uniqueStringSliceCmp_perm_right⟩
  intro src dst hsrc hdst
  rw [uniqueStringSliceCmp_iff]
  have hcs : src.toFinset.card = src.length := by
    rw [List.card_toFinset, hsrc.dedup]
  have hcd : dst.toFinset.card = dst.length := by
    rw [List.card_toFinset, hdst.dedup]
  constructor
  · rintro ⟨hlen, hcard⟩
    refine ⟨hlen, ?_⟩
    have hsub : dst.toFinset ⊆ src.toFinset := by
      by_contra hns
      have hlt : src.toFinset.card < (src.toFinset ∪ dst.toFinset).card := by
        rcases Finset.not_subset.mp hns with ⟨x, hxd, hxs⟩
        refine Finset.card_lt_card ?_
        constructor
        · exact Finset.subset_union_left
        · intro hsup
          exact hxs (hsup (Finset.mem_union_right _ hxd))
      omega
    have heq : dst.toFinset = src.toFinset :=
      Finset.eq_of_subset_of_card_le hsub (by omega)
    exact heq.symm
  · rintro ⟨hlen, hset⟩
    refine ⟨hlen, ?_⟩
    rw [hset, Finset.union_self, hcd, hlen]

/-- Closed witness for `C5_uniqueCmp_is_set_comparison` at concrete inputs. -/
theorem C5_witness :
    UniqueStringSliceCmp ["a", "b"] ["b", "a"] = true ∧
      UniqueStringSliceCmp ["a", "b"] ["x", "y"] = UniqueStringSliceCmp ["b", "a"] ["x", "y"] := by
  constructor
  · exact (C5_uniqueCmp_is_set_comparison.1 ["a", "b"] ["b", "a"]
      (by decide) (by decide)).mpr ⟨by decide, by decide⟩
  · exact C5_uniqueCmp_is_set_comparison.2.1 ["a", "b"] ["b", "a"] ["x", "y"]
      (List.Perm.swap _ _ _)

/-! ## Topology Resolver (kubecerts.parsesans / kubecerts.getKubehosts)

Go's `strings.Split(s, sep)` is used here only with single-character
separators; it is modelled by a structural split over the character list
(`strings.Split("", sep) = [""]`, matching Go).  A Go `map[string][]string`
built by keyed assignment is modelled as an insertion-ordered association
list with insert-or-replace. -/

/-- Split a character list at every occurrence of `sep` (Go `strings.Split`
with a one-character separator). -/
def splitChar (sep : Char) : List Char → List (List Char)
  | [] => [[]]
  | c :: rest =>
    let r := splitChar sep rest
    if c = sep then [] :: r
    else (c :: r.headD []) :: r.tail

/-- Go `strings.Split(s, sep)` for a one-character separator `sep`. -/
def goSplit (sep : Char) (s : String) : List String :=
  (splitChar sep s.data).map String.mk

/-- One node→extras map (`map[string][]string`). -/
abbrev NodeMap := List (String × List String)

/-- Insert-or-replace into the association-list model of a Go map. -/
def assocSet (m : NodeMap) (k : String) (v : List String) : NodeMap :=
  if m.any (fun p => p.1 = k) then
    m.map (fun p => if p.1 = k then (k, v) else p)
  else m ++ [(k, v)]

/-- Keyed lookup in the association-list model of a Go map. -/
def assocGet (m : NodeMap) (k : String) : Option (List String) :=
  (m.find? (fun p => p.1 = k)).map Prod.snd

/-- One iteration of the `parsesans` loop: split a `name[/x1:x2:...]` block.
A Go `nil` extras slice is modelled as `[]`. -/
def parseHostEntry (host : String) : Except String (String × List String) :=
  let extrasans := goSplit '/' host
  if extrasans.length > 2 then
    Except.error "only node name per host allowed"
  else
    let node := extrasans.headD ""
    if extrasans.length > 1 then
      let extras := goSplit ':' (extrasans.getD 1 "")
      if extras.any (fun e => e = "") then
        Except.error "any extrasan supplied must not be empty"
      else Except.ok (node, extras)
    else Except.ok (node, [])

/-- `kubecerts.parsesans`.  `none` models a `nil` pointer; the empty string
models an absent argument. -/
def parsesans (hosts : Option String) (single : Bool) : Except String NodeMap :=
  match hosts with
  | none => Except.error "must have at least one host"
  | some s =>
    if s = "" then Except.error "must have at least one host"
    else
      let hostslist := goSplit ',' s
      if single ∧ hostslist.length > 1 then
        Except.error "only one main api host allowed"
      else
        hostslist.foldlM (fun m host => do
          let e ← parseHostEntry host
          pure (assocSet m e.1 e.2)) []

/-- The normalized topology: role name → node map. -/
structure KubeHostsAll where
  apisans : NodeMap
  masters : NodeMap
  workers : NodeMap
  etcd : NodeMap
deriving DecidableEq

/-- Go map access `hosts[nodetype]`: the four populated role keys resolve,
any other key is the `nil` map. -/
def KubeHostsAll.role (h : KubeHostsAll) (r : String) : Option NodeMap :=
  if r = "apisans" then some h.apisans
  else if r = "masters" then some h.masters
  else if r = "workers" then some h.workers
  else if r = "etcd" then some h.etcd
  else none

/-- `kubecerts.getKubehosts`: parse the four role strings; a failed parse of
the consensus-store (etcd) argument falls back to the control-plane map. -/
def getKubehosts (apisans masters workers etcd : Option String) :
    Except String KubeHostsAll := do
  let api ← parsesans apisans false
  let mst ← parsesans masters false
  let wrk ← parsesans workers false
  match parsesans etcd false with
  | Except.ok etc => pure ⟨api, mst, wrk, etc⟩
  | Except.error _ => pure ⟨api, mst, wrk, mst⟩

/-- **C9**: when the API-alias, masters and workers strings parse and the
consensus-store argument is absent (`nil` pointer or empty string), the
resolver returns a topology whose etcd role is exactly the masters node map
(same node names, same extra names). -/
theorem C9_etcd_defaults_to_masters (a m w e : Option String)
    (api mst wrk : NodeMap)
    (ha : parsesans a false = Except.ok api)
    (hm : parsesans m false = Except.ok mst)
    (hw : parsesans w false = Except.ok wrk)
    (he : e = none ∨ e = some "") :
    getKubehosts a m w e = Except.ok ⟨api, mst, wrk, mst⟩ := by
  have hetcd : parsesans e false = Except.error "must have at least one host" := by
    rcases he with h | h <;> subst h <;> simp [parsesans]
  simp [getKubehosts, ha, hm, hw, hetcd, Bind.bind, Except.bind, pure, Except.pure]

/-- Closed witness for `C9_etcd_defaults_to_masters` on a concrete topology. -/
theorem C9_witness :
    getKubehosts (some "kapi.example.org/10.0.0.1") (some "m1/10.1.0.1,m2")
        (some "w1") none =
      Except.ok ⟨[("kapi.example.org", ["10.0.0.1"])],
        [("m1", ["10.1.0.1"]), ("m2", [])], [("w1", [])],
        [("m1", ["10.1.0.1"]), ("m2", [])]⟩ :=
  C9_etcd_defaults_to_masters _ _ _ _ _ _ _ rfl rfl rfl (Or.inl rfl)

/-! ## Certificate Template Registry (kubecerts.kubeCertTemplates / getUsers) -/

/-- The two `x509.ExtKeyUsage` values the catalog uses. -/
inductive ExtKeyUsage where
  | serverAuth
  | clientAuth
deriving DecidableEq

/-- `kubecerts.KubeCertTemplate`; omitted Go fields default to zero values. -/
structure KubeCertTemplate where
  path : String := ""
  usages : List ExtKeyUsage := []
  parent : String := ""
  nodes : List String := []
  nodeSans : Bool := false
  apiSans : Bool := false
  extraSans : List String := []
  commonnameTemplate : String := ""
  organisationTemplate : String := ""
deriving DecidableEq, Inhabited

/-- The static certificate catalog, transcribed verbatim from
`kubecerts.kubeCertTemplates`.  Certificate authorities come first. -/
def kubeCertTemplates : List KubeCertTemplate :=
  [ { path := "/etc/kubernetes/pki/ca",
      commonnameTemplate := "kubernetes" },
    { path := "/etc/kubernetes/pki/etcd/ca",
      commonnameTemplate := "etcd-ca" },
    { path := "/etc/kubernetes/pki/front-proxy-ca",
      commonnameTemplate := "front-proxy-ca" },
    { path := "/etc/kubernetes/pki/apiserver",
      parent := "/etc/kubernetes/pki/ca",
      nodes := ["masters"],
      commonnameTemplate := "kube-apiserver",
      usages := [ExtKeyUsage.serverAuth],
      nodeSans := true,
      apiSans := true,
      extraSans := ["kubernetes", "kubernetes.default", "kubernetes.default.svc",
        "kubernetes.default.svc.cluster.local"] },
    { path := "/etc/kubernetes/pki/apiserver-kubelet-client",
      parent := "/etc/kubernetes/pki/ca",
      nodes := ["masters"],
      commonnameTemplate := "kube-apiserver-kubelet-client",
      organisationTemplate := "system:masters",
      usages := [ExtKeyUsage.clientAuth] },
    { path := "/etc/kubernetes/pki/admin",
      parent := "/etc/kubernetes/pki/ca",
      commonnameTemplate := "kubernetes-admin",
      organisationTemplate := "system:masters",
      usages := [ExtKeyUsage.clientAuth] },
    { path := "/etc/kubernetes/pki/controller-manager",
      parent := "/etc/kubernetes/pki/ca",
      nodes := ["masters"],
      commonnameTemplate := "system:kube-controller-manager",
      usages := [ExtKeyUsage.clientAuth] },
    { path := "/etc/kubernetes/pki/kubelet",
      parent := "/etc/kubernetes/pki/ca",
      nodes := ["masters", "workers"],
      commonnameTemplate := "system:node:\x7b\x7b.NodeName\x7d\x7d",
      organisationTemplate := "system:nodes",
      usages := [ExtKeyUsage.clientAuth] },
    { path := "/var/lib/kubelet/pki/kubelet",
      parent := "/etc/kubernetes/pki/ca",
      nodes := ["masters", "workers"],
      commonnameTemplate := "\x7b\x7b.NodeName\x7d\x7d",
      organisationTemplate := "system:nodes",
      usages := [ExtKeyUsage.serverAuth],
      nodeSans := true },
    { path := "/etc/kubernetes/pki/scheduler",
      parent := "/etc/kubernetes/pki/ca",
      nodes := ["masters"],
      commonnameTemplate := "system:kube-scheduler",
      usages := [ExtKeyUsage.clientAuth] },
    { path := "/etc/kubernetes/pki/kube-proxy",
      parent := "/etc/kubernetes/pki/ca",
      nodes := ["masters", "workers"],
      commonnameTemplate := "system:kube-proxy",
      organisationTemplate := "system:node-proxier",
      usages := [ExtKeyUsage.clientAuth] },
    { path := "/etc/kubernetes/pki/front-proxy-client",
      parent := "/etc/kubernetes/pki/front-proxy-ca",
      nodes := ["masters", "workers"],
      commonnameTemplate := "front-proxy-client",
      usages := [ExtKeyUsage.clientAuth] },
    { path := "/etc/kubernetes/pki/etcd/server",
      parent := "/etc/kubernetes/pki/etcd/ca",
      nodes := ["etcd"],
      commonnameTemplate := "\x7b\x7b.NodeName\x7d\x7d",
      usages := [ExtKeyUsage.serverAuth],
      nodeSans := true },
    { path := "/etc/kubernetes/pki/etcd/peer",
      parent := "/etc/kubernetes/pki/etcd/ca",
      nodes := ["etcd"],
      commonnameTemplate := "\x7b\x7b.NodeName\x7d\x7d",
      usages := [ExtKeyUsage.serverAuth, ExtKeyUsage.clientAuth],
      nodeSans := true },
    { path := "/etc/kubernetes/pki/etcd/etcd-healthcheck-client",
      parent := "/etc/kubernetes/pki/etcd/ca",
      nodes := ["masters"],
      commonnameTemplate := "kube-etcd-healthcheck-client",
      organisationTemplate := "system:masters",
      usages := [ExtKeyUsage.clientAuth] },
    { path := "/etc/kubernetes/pki/apiserver-etcd-client",
      parent := "/etc/kubernetes/pki/etcd/ca",
      nodes := ["masters"],
      commonnameTemplate := "kube-apiserver-etcd-client",
      organisationTemplate := "system:masters",
      usages := [ExtKeyUsage.clientAuth] } ]

/-- The one user-certificate template `getUsers` appends per `user/group`. -/
def userCertTemplate (user group : String) : KubeCertTemplate :=
  { path := "/etc/kubernetes/pki/users/" ++ user,
    usages := [ExtKeyUsage.clientAuth],
    parent := "/etc/kubernetes/pki/ca",
    commonnameTemplate := user,
    organisationTemplate := group }

/-- `kubecerts.getUsers`: the templates appended to the catalog for a users
string; a block without a `/` is skipped. -/
def getUsersTemplates (users : String) : List KubeCertTemplate :=
  (goSplit ',' users).filterMap (fun ug =>
    match goSplit '/' ug with
    | u :: g :: _ => some (userCertTemplate u g)
    | _ => none)

/-! ## Identity Materializer (renderStringTemplate, makeSans,
MakeKubeCertFromTemplate, RenderCertTemplates) -/

/-- Fuel-driven replacement of every occurrence of `pat`; the catalog's
common-name/organisation patterns only ever contain the node-name
placeholder, so `text/template` execution is this substitution. -/
def replaceAll (pat rep : List Char) : Nat → List Char → List Char
  | 0, l => l
  | _ + 1, [] => []
  | fuel + 1, c :: rest =>
    if pat.isPrefixOf (c :: rest) then
      rep ++ replaceAll pat rep fuel ((c :: rest).drop pat.length)
    else c :: replaceAll pat rep fuel rest

/-- `kubecerts.renderStringTemplate`: substitute the node name for the
`\x7b\x7b.NodeName\x7d\x7d` placeholder. -/
def renderStringTemplate (templateString : String) (node : String) : String :=
  String.mk (replaceAll "\x7b\x7b.NodeName\x7d\x7d".data node.data
    templateString.data.length templateString.data)

/-- `kubecerts.defaultNodeSans`. -/
def defaultNodeSans : List String := ["127.0.0.1", "localhost", "::1"]

/-- Add one name to the uniqueness map `sansMAP` (insertion order kept). -/
def sansInsert (m : List String) (s : String) : List String :=
  if s ∈ m then m else m ++ [s]

/-- `kubecerts.makeSans`, enumerating `sansMAP` in insertion order.  The Go
map's iteration order is unspecified; this function fixes one admissible
enumeration, and `IsMakeSansOutput` below characterises all of them. -/
def makeSans (hosts : KubeHostsAll) (nodeType node : String)
    (apiSansB nodeSansB : Bool) (extraSans : List String) : List String :=
  let m0 : List String := []
  let m1 := if apiSansB then
      hosts.apisans.foldl (fun acc p => p.2.foldl sansInsert (sansInsert acc p.1)) m0
    else m0
  let m2 := if nodeSansB then
      (((assocGet ((hosts.role nodeType).getD []) node).getD []).foldl sansInsert
        (defaultNodeSans.foldl sansInsert (sansInsert m1 node)))
    else m1
  if extraSans.length > 0 then extraSans.foldl sansInsert m2 else m2

/-- An admissible result of one execution of `makeSans`: Go emits the keys
of `sansMAP` in an unspecified order, i.e. any duplicate-free enumeration
of the derived name set. -/
def IsMakeSansOutput (hosts : KubeHostsAll) (nodeType node : String)
    (apiSansB nodeSansB : Bool) (extraSans : List String) (l : List String) : Prop :=
  l.Nodup ∧ l.toFinset = (makeSans hosts nodeType node apiSansB nodeSansB extraSans).toFinset

/-- `kubecerts.KubeCert`, restricted to the identity fields set by the
Identity Materializer (the mutable cert/key/PEM slots live in the engine
state of the reconciliation model below). -/
structure KubeCert where
  node : String
  commonName : String
  organisation : List String
  sans : List String
  templateIdx : Nat
  readPath : String
  writePath : String
deriving DecidableEq, Inhabited

/-- `kubecerts.GlobalPath`. -/
def GlobalPath : String := "global"

/-- `kubecerts.NodesPath`. -/
def NodesPath : String := "nodes"

/-- `kubecerts.MakeKubeCertFromTemplate` (its error result is always nil).
`filepath.Join` is modelled by concatenation: every catalog path begins
with `/`, so no separator insertion or cleaning occurs. -/
def MakeKubeCertFromTemplate (hosts : KubeHostsAll) (tpl : KubeCertTemplate)
    (idx : Nat) (nodetype node : String) : KubeCert :=
  let sans := makeSans hosts nodetype node tpl.apiSans tpl.nodeSans tpl.extraSans
  let commonName := renderStringTemplate tpl.commonnameTemplate node
  let organisation0 := [renderStringTemplate tpl.organisationTemplate node]
  let organisation := if organisation0 = [""] then [] else organisation0
  let path := if node = "" then GlobalPath ++ tpl.path
    else NodesPath ++ "/" ++ node ++ tpl.path
  { node := node, commonName := commonName, organisation := organisation,
    sans := sans, templateIdx := idx, readPath := path, writePath := path }

/-- Insert-or-replace into `KubeCAMap` (a Go `map[string]int`). -/
def caMapSet (m : List (String × Nat)) (k : String) (v : Nat) : List (String × Nat) :=
  if m.any (fun p => p.1 = k) then
    m.map (fun p => if p.1 = k then (k, v) else p)
  else m ++ [(k, v)]

/-- Lookup in `KubeCAMap`. -/
def caMapGet (m : List (String × Nat)) (k : String) : Option Nat :=
  (m.find? (fun p => p.1 = k)).map Prod.snd

/-- The state grown by `RenderCertTemplates`: the descriptor list
`AllKubeCerts` and the authority-path lookup `KubeCAMap`. -/
structure RenderSt where
  all : List KubeCert
  caMap : List (String × Nat)
deriving DecidableEq

/-- One iteration of the `RenderCertTemplates` loop: materialize the
descriptors of one template (one descriptor for a role-independent
template, one per node of each declared role otherwise), then, for an
authority, record `len(AllKubeCerts) - 1` in `KubeCAMap`. -/
def renderStep (hosts : KubeHostsAll) (st : RenderSt)
    (p : Nat × KubeCertTemplate) : RenderSt :=
  let descs :=
    if p.2.nodes = [] then [MakeKubeCertFromTemplate hosts p.2 p.1 "" ""]
    else p.2.nodes.flatMap (fun nt =>
      match hosts.role nt with
      | none => []
      | some nm => nm.map (fun q => MakeKubeCertFromTemplate hosts p.2 p.1 nt q.1))
  let all := st.all ++ descs
  let caMap := if p.2.parent = "" then caMapSet st.caMap p.2.path (all.length - 1)
    else st.caMap
  ⟨all, caMap⟩

/-- `kubecerts.RenderCertTemplates` over a given (already user-extended)
catalog. -/
def RenderCertTemplates (tpls : List KubeCertTemplate) (hosts : KubeHostsAll) :
    RenderSt :=
  tpls.enum.foldl (renderStep hosts) ⟨[], []⟩

/-- **C7** (counterexample): `makeSans` emits the keys of a Go map, whose
iteration order is unspecified; two executions over an identical topology
may emit the same name set in different orders, so the derivation is not
stable as a *list*.  Both lists below are admissible outputs for one fixed
topology, and they differ. -/
theorem C7_counterexample :
    IsMakeSansOutput ⟨[], [], [], []⟩ "masters" "n" false true []
        ["n", "127.0.0.1", "localhost", "::1"] ∧
      IsMakeSansOutput ⟨[], [], [], []⟩ "masters" "n" false true []
        ["::1", "localhost", "127.0.0.1", "n"] ∧
      ["n", "127.0.0.1", "localhost", "::1"] ≠
        ["::1", "localhost", "127.0.0.1", "n"] := by
  refine ⟨⟨by decide, by decide⟩, ⟨by decide, by decide⟩, by decide⟩

/-- **C7** (amended): for a fixed topology and template, any two executions
of the subject-alternative-name derivation produce the same *name set* —
the outputs are permutations of each other — though not necessarily the
same list order. -/
theorem C7_sans_outputs_agree_as_sets (hosts : KubeHostsAll)
    (nodeType node : String) (apiSansB nodeSansB : Bool) (extraSans : List String)
    (l1 l2 : List String)
    (h1 : IsMakeSansOutput hosts nodeType node apiSansB nodeSansB extraSans l1)
    (h2 : IsMakeSansOutput hosts nodeType node apiSansB nodeSansB extraSans l2) :
    l1.Perm l2 := by
  have hfin : l1.toFinset = l2.toFinset := h1.2.trans h2.2.symm
  have hm : (l1 : Multiset String) = (l2 : Multiset String) := by
    apply Multiset.Nodup.toFinset_inj
    · exact Multiset.coe_nodup.mpr h1.1
    · exact Multiset.coe_nodup.mpr h2.1
    · exact hfin
  exact Multiset.coe_eq_coe.mp hm

/-- Closed witness for `C7_sans_outputs_agree_as_sets`. -/
theorem C7_witness :
    (["n", "127.0.0.1", "localhost", "::1"] : List String).Perm
      ["::1", "localhost", "127.0.0.1", "n"] :=
  C7_sans_outputs_agree_as_sets ⟨[], [], [], []⟩ "masters" "n" false true [] _ _
    ⟨by decide, by decide⟩ ⟨by decide, by decide⟩

/-! ### C8: catalog ordering invariant -/

theorem getUsersTemplates_parent (users : String) (t : KubeCertTemplate)
    (ht : t ∈ getUsersTemplates users) : t.parent = "/etc/kubernetes/pki/ca" := by
  unfold getUsersTemplates at ht
  rw [List.mem_filterMap] at ht
  rcases ht with ⟨ug, _, hmap⟩
  cases hsplit : goSplit '/' ug with
  | nil => rw [hsplit] at hmap; simp at hmap
  | cons u rest =>
    cases rest with
    | nil => rw [hsplit] at hmap; simp at hmap
    | cons g rest2 =>
      rw [hsplit] at hmap
      simp only [Option.some.injEq] at hmap
      rw [← hmap]
      rfl

theorem list_getD_append_left {α : Type} [Inhabited α] (l₁ l₂ : List α) (i : Nat)
    (h : i < l₁.length) :
    (l₁ ++ l₂).getD i default = l₁.getD i default := by
  unfold List.getD
  rw [List.get?_append h]

theorem list_getD_append_right {α : Type} [Inhabited α] (l₁ l₂ : List α) (i : Nat)
    (h : l₁.length ≤ i) :
    (l₁ ++ l₂).getD i default = l₂.getD (i - l₁.length) default := by
  unfold List.getD
  rw [List.get?_append_right h]

theorem list_getD_mem {α : Type} [Inhabited α] (l : List α) (i : Nat)
    (h : i < l.length) : l.getD i default ∈ l := by
  unfold List.getD
  rw [List.get?_eq_get h]
  simp only [Option.getD_some]
  exact List.get_mem l i h

theorem kubeCertTemplates_length : kubeCertTemplates.length = 16 := by decide

theorem static_catalog_ordering :
    ∀ i, i < 16 → ∀ j, j < 16 →
      (kubeCertTemplates.getD i default).parent = "" →
      (kubeCertTemplates.getD j default).parent =
        (kubeCertTemplates.getD i default).path →
      i < j := by decide

theorem static_catalog_parent_resolves :
    ∀ j, j < 16 → (kubeCertTemplates.getD j default).parent ≠ "" →
      ∃ i, i < 16 ∧ i < j ∧
        (kubeCertTemplates.getD i default).path =
          (kubeCertTemplates.getD j default).parent := by decide

/-- **C8**: in the user-extended catalog, every authority template (empty
parent) sits strictly before any template whose parent references its path,
and every non-empty parent reference resolves to a path occurring at an
earlier index. -/
theorem C8_catalog_authority_ordering (users : String) :
    (∀ i j, i < (kubeCertTemplates ++ getUsersTemplates users).length →
        j < (kubeCertTemplates ++ getUsersTemplates users).length →
        ((kubeCertTemplates ++ getUsersTemplates users).getD i default).parent = "" →
        ((kubeCertTemplates ++ getUsersTemplates users).getD j default).parent =
          ((kubeCertTemplates ++ getUsersTemplates users).getD i default).path →
        i < j) ∧
    (∀ j, j < (kubeCertTemplates ++ getUsersTemplates users).length →
        ((kubeCertTemplates ++ getUsersTemplates users).getD j default).parent ≠ "" →
        ∃ i, i < j ∧
          ((kubeCertTemplates ++ getUsersTemplates users).getD i default).path =
            ((kubeCertTemplates ++ getUsersTemplates users).getD j default).parent) := by
  have hklen : kubeCertTemplates.length = 16 := kubeCertTemplates_length
  constructor
  · intro i j hi hj hpi hpj
    by_cases h15 : i < 16
    · have ei := list_getD_append_left kubeCertTemplates (getUsersTemplates users) i
        (by omega)
      rw [ei] at hpi hpj
      by_cases hj15 : j < 16
      · have ej := list_getD_append_left kubeCertTemplates (getUsersTemplates users) j
          (by omega)
        rw [ej] at hpj
        exact static_catalog_ordering i h15 j hj15 hpi hpj
      · omega
    · exfalso
      have ei := list_getD_append_right kubeCertTemplates (getUsersTemplates users) i
        (by omega)
      rw [ei] at hpi
      have hmem : (getUsersTemplates users).getD (i - kubeCertTemplates.length) default ∈
          getUsersTemplates users := by
        apply list_getD_mem
        rw [List.length_append] at hi
        omega
      have := getUsersTemplates_parent users _ hmem
      rw [hpi] at this
      exact absurd this (by decide)
  · intro j hj hpj
    by_cases hj15 : j < 16
    · have ej := list_getD_append_left kubeCertTemplates (getUsersTemplates users) j
        (by omega)
      rw [ej] at hpj
      obtain ⟨i, hi15, hij, hpath⟩ := static_catalog_parent_resolves j hj15 hpj
      refine ⟨i, hij, ?_⟩
      have ei := list_getD_append_left kubeCertTemplates (getUsersTemplates users) i
        (by omega)
      rw [ei, ej]
      exact hpath
    · have hpar : ((kubeCertTemplates ++ getUsersTemplates users).getD j default).parent =
          "/etc/kubernetes/pki/ca" := by
        have ej := list_getD_append_right kubeCertTemplates (getUsersTemplates users) j
          (by omega)
        rw [ej]
        apply getUsersTemplates_parent users
        apply list_getD_mem
        rw [List.length_append] at hj
        omega
      refine ⟨0, by omega, ?_⟩
      have e0 := list_getD_append_left kubeCertTemplates (getUsersTemplates users) 0
        (by omega)
      rw [hpar, e0]
      rfl

/-- Closed witness for `C8_catalog_authority_ordering`: with one appended
user template, the apiserver leaf (index 3) sits after the authority it
references (index 0), and the user template's parent resolves earlier. -/
theorem C8_witness :
    (0 : Nat) < 3 ∧
      ((kubeCertTemplates ++ getUsersTemplates "bob/admins").getD 16 default).parent ≠ "" := by
  constructor
  · exact (C8_catalog_authority_ordering "bob/admins").1 0 3 (by decide) (by decide)
      (by decide) (by decide)
  · decide

/-! ### C10: the authority-path lookup points at the authority's descriptor -/

theorem caMapGet_cons (p : String × Nat) (rest : List (String × Nat)) (k : String) :
    caMapGet (p :: rest) k = if p.1 = k then some p.2 else caMapGet rest k := by
  unfold caMapGet
  rw [List.find?_cons]
  by_cases h : p.1 = k <;> simp [h]

theorem caMapGet_map_other (m : List (String × Nat)) (k k' : String) (v : Nat)
    (hne : k' ≠ k) :
    caMapGet (m.map (fun p => if p.1 = k then (k, v) else p)) k' = caMapGet m k' := by
  induction m with
  | nil => rfl
  | cons p rest ih =>
    rw [List.map_cons, caMapGet_cons, caMapGet_cons]
    by_cases hp : p.1 = k
    · rw [if_pos hp,
        if_neg (show ¬((k, v).1 = k') from fun he => hne he.symm),
        if_neg (show ¬(p.1 = k') from fun he => hne (by rw [← he]; exact hp))]
      exact ih
    · rw [if_neg hp]
      by_cases hk' : p.1 = k'
      · rw [if_pos hk', if_pos hk']
      · rw [if_neg hk', if_neg hk']
        exact ih

theorem caMapGet_append_other (m : List (String × Nat)) (k k' : String) (v : Nat)
    (hne : k' ≠ k) :
    caMapGet (m ++ [(k, v)]) k' = caMapGet m k' := by
  induction m with
  | nil =>
    rw [List.nil_append, caMapGet_cons,
      if_neg (show ¬((k, v).1 = k') from fun he => hne he.symm)]
  | cons p rest ih =>
    rw [List.cons_append, caMapGet_cons, caMapGet_cons]
    by_cases hk' : p.1 = k'
    · rw [if_pos hk', if_pos hk']
    · rw [if_neg hk', if_neg hk']
      exact ih

theorem caMapSet_get_self (m : List (String × Nat)) (k : String) (v : Nat) :
    caMapGet (caMapSet m k v) k = some v := by
  unfold caMapSet
  split
  · next hany =>
    induction m with
    | nil => simp at hany
    | cons p rest ih =>
      rw [List.map_cons, caMapGet_cons]
      by_cases hp : p.1 = k
      · simp [hp]
      · rw [if_neg hp, if_neg hp]
        apply ih
        simp only [List.any_cons, Bool.or_eq_true, decide_eq_true_eq] at hany
        rcases hany with h | h
        · exact absurd h hp
        · simpa using h
  · induction m with
    | nil => simp [caMapGet]
    | cons p rest ih =>
      next hany =>
      rw [List.cons_append, caMapGet_cons]
      have hp : p.1 ≠ k := by
        intro he
        exact hany (by simp [he])
      rw [if_neg hp]
      apply ih
      intro hr
      exact hany (by simp only [List.any_cons, Bool.or_eq_true]; exact Or.inr hr)

theorem caMapSet_get_other (m : List (String × Nat)) (k k' : String) (v : Nat)
    (hne : k' ≠ k) :
    caMapGet (caMapSet m k v) k' = caMapGet m k' := by
  unfold caMapSet
  split
  · exact caMapGet_map_other m k k' v hne
  · exact caMapGet_append_other m k k' v hne

/-- The invariant tracked through `RenderCertTemplates`: the authority map
sends `tpl.path` to an index of `all` holding exactly the descriptor that
template `i` materializes (node-independent, so node and role are empty). -/
def CaOk (hosts : KubeHostsAll) (st : RenderSt) (i : Nat)
    (tpl : KubeCertTemplate) : Prop :=
  ∃ ci, caMapGet st.caMap tpl.path = some ci ∧ ci < st.all.length ∧
    st.all.getD ci default = MakeKubeCertFromTemplate hosts tpl i "" ""

theorem list_getD_concat {α : Type} [Inhabited α] (l : List α) (x : α) :
    (l ++ [x]).getD l.length default = x := by
  unfold List.getD
  rw [List.get?_append_right (Nat.le_refl _)]
  simp

theorem renderStep_establishes (hosts : KubeHostsAll) (st : RenderSt) (i : Nat)
    (tpl : KubeCertTemplate) (hpar : tpl.parent = "") (hnodes : tpl.nodes = []) :
    CaOk hosts (renderStep hosts st (i, tpl)) i tpl := by
  refine ⟨st.all.length, ?_, ?_, ?_⟩
  · show caMapGet (if tpl.parent = "" then
        caMapSet st.caMap tpl.path ((st.all ++ _).length - 1) else st.caMap) tpl.path = _
    rw [if_pos hpar]
    rw [hnodes]
    simp only [if_pos rfl, List.length_append, List.length_cons, List.length_nil]
    rw [caMapSet_get_self]
    simp
  · show st.all.length < (st.all ++ _).length
    rw [hnodes]
    simp
  · show (st.all ++ _).getD st.all.length default = _
    rw [hnodes]
    simp only [if_pos rfl]
    exact list_getD_concat st.all _

theorem renderStep_preserves (hosts : KubeHostsAll) (st : RenderSt)
    (p : Nat × KubeCertTemplate) (i : Nat) (tpl : KubeCertTemplate)
    (hca : CaOk hosts st i tpl)
    (hdiff : p.2.parent = "" → p.2.path ≠ tpl.path) :
    CaOk hosts (renderStep hosts st p) i tpl := by
  obtain ⟨ci, h1, h2, h3⟩ := hca
  refine ⟨ci, ?_, ?_, ?_⟩
  · show caMapGet (if p.2.parent = "" then caMapSet st.caMap p.2.path _ else st.caMap)
        tpl.path = some ci
    split
    · next hpp =>
      rw [caMapSet_get_other _ _ _ _ (fun he => hdiff hpp he.symm)]
      exact h1
    · exact h1
  · show ci < (st.all ++ _).length
    rw [List.length_append]
    omega
  · show (st.all ++ _).getD ci default = _
    rw [list_getD_append_left _ _ _ h2]
    exact h3

theorem renderFold_preserves (hosts : KubeHostsAll)
    (pairs : List (Nat × KubeCertTemplate)) (st : RenderSt) (i : Nat)
    (tpl : KubeCertTemplate) (hca : CaOk hosts st i tpl)
    (hdiff : ∀ p ∈ pairs, p.2.parent = "" → p.2.path ≠ tpl.path) :
    CaOk hosts (pairs.foldl (renderStep hosts) st) i tpl := by
  induction pairs generalizing st with
  | nil => exact hca
  | cons q rest ih =>
    rw [List.foldl_cons]
    exact ih _ (renderStep_preserves hosts st q i tpl hca
      (hdiff q (List.mem_cons_self q rest)))
      (fun p hp => hdiff p (List.mem_cons_of_mem q hp))

theorem renderFold_establishes (hosts : KubeHostsAll) :
    ∀ (pairs : List (Nat × KubeCertTemplate)) (st : RenderSt) (i : Nat)
      (tpl : KubeCertTemplate), (i, tpl) ∈ pairs →
      tpl.parent = "" → tpl.nodes = [] →
      (pairs.map Prod.fst).Nodup →
      (∀ p ∈ pairs, p.2.parent = "" → p.2.path = tpl.path → p = (i, tpl)) →
      CaOk hosts (pairs.foldl (renderStep hosts) st) i tpl := by
  intro pairs
  induction pairs with
  | nil =>
    intro st i tpl hmem
    cases hmem
  | cons q rest ih =>
    intro st i tpl hmem hpar hnodes hnodup hdiff
    rw [List.foldl_cons]
    rw [List.map_cons, List.nodup_cons] at hnodup
    rcases List.mem_cons.mp hmem with hq | hrest
    · subst hq
      apply renderFold_preserves hosts rest _ i tpl
        (renderStep_establishes hosts st i tpl hpar hnodes)
      intro p hp hpp hpath
      have := hdiff p (List.mem_cons_of_mem _ hp) hpp hpath
      subst this
      exact absurd (List.mem_map_of_mem Prod.fst hp) hnodup.1
    · exact ih _ i tpl hrest hpar hnodes hnodup.2
        (fun p hp => hdiff p (List.mem_cons_of_mem q hp))

theorem static_authority_nodes :
    ∀ i, i < 16 → (kubeCertTemplates.getD i default).parent = "" →
      (kubeCertTemplates.getD i default).nodes = [] := by decide

theorem static_authority_paths_inj :
    ∀ i, i < 16 → ∀ j, j < 16 →
      (kubeCertTemplates.getD i default).parent = "" →
      (kubeCertTemplates.getD j default).parent = "" →
      (kubeCertTemplates.getD j default).path =
        (kubeCertTemplates.getD i default).path →
      j = i := by decide

/-- Bridge from catalog indexing to membership in the enumerated fold. -/
theorem catalog_enum_elim (tpls : List KubeCertTemplate) (p : Nat × KubeCertTemplate)
    (hp : p ∈ tpls.enum) : p.1 < tpls.length ∧ p.2 = tpls.getD p.1 default := by
  have h := List.mem_enum_iff_getElem?.mp hp
  have hlt : p.1 < tpls.length := by
    by_contra hge
    rw [List.getElem?_eq_none (by omega)] at h
    cases h
  refine ⟨hlt, ?_⟩
  unfold List.getD
  rw [List.get?_eq_getElem?, h]
  rfl

/-- The converse bridge: every in-range index appears in the enumeration
with its `getD` element. -/
theorem catalog_enum_intro (tpls : List KubeCertTemplate) (i : Nat)
    (h : i < tpls.length) : (i, tpls.getD i default) ∈ tpls.enum := by
  rw [List.mk_mem_enum_iff_getElem?]
  unfold List.getD
  rw [List.get?_eq_getElem?, List.getElem?_eq_getElem h]
  rfl

/-- **C10**: after `RenderCertTemplates` over the user-extended catalog,
`KubeCAMap` maps the path of every parentless (authority) template to the
index in `AllKubeCerts` of the descriptor materialized from exactly that
template.  The argument matches the code comment: authority templates
declare no node roles, so each appends exactly one descriptor, recorded as
length-minus-one. -/
theorem C10_authority_map_invariant (hosts : KubeHostsAll) (users : String)
    (i : Nat) (hi : i < (kubeCertTemplates ++ getUsersTemplates users).length)
    (hpar : ((kubeCertTemplates ++ getUsersTemplates users).getD i default).parent = "") :
    ∃ ci, caMapGet
        (RenderCertTemplates (kubeCertTemplates ++ getUsersTemplates users) hosts).caMap
        ((kubeCertTemplates ++ getUsersTemplates users).getD i default).path = some ci ∧
      ci < (RenderCertTemplates (kubeCertTemplates ++ getUsersTemplates users) hosts).all.length ∧
      (RenderCertTemplates (kubeCertTemplates ++ getUsersTemplates users) hosts).all.getD
          ci default =
        MakeKubeCertFromTemplate hosts
          ((kubeCertTemplates ++ getUsersTemplates users).getD i default) i "" "" := by
  have hklen : kubeCertTemplates.length = 16 := kubeCertTemplates_length
  have h16 : i < 16 := by
    by_contra hge
    have ei := list_getD_append_right kubeCertTemplates (getUsersTemplates users) i
      (by omega)
    rw [ei] at hpar
    have hmem : (getUsersTemplates users).getD (i - kubeCertTemplates.length) default ∈
        getUsersTemplates users := by
      apply list_getD_mem
      rw [List.length_append] at hi
      omega
    have := getUsersTemplates_parent users _ hmem
    rw [hpar] at this
    exact absurd this (by decide)
  have ei := list_getD_append_left kubeCertTemplates (getUsersTemplates users) i
    (by omega)
  apply renderFold_establishes
  · exact catalog_enum_intro _ i hi
  · exact hpar
  · rw [ei] at hpar ⊢
    exact static_authority_nodes i h16 hpar
  · rw [List.enum_map_fst]
    exact List.nodup_range _
  · intro p hp hpp hpath
    obtain ⟨hplt, hpeq⟩ := catalog_enum_elim _ p hp
    have hp16 : p.1 < 16 := by
      by_contra hge
      have ep := list_getD_append_right kubeCertTemplates (getUsersTemplates users) p.1
        (by omega)
      rw [hpeq, ep] at hpp
      have hmem : (getUsersTemplates users).getD (p.1 - kubeCertTemplates.length) default ∈
          getUsersTemplates users := by
        apply list_getD_mem
        rw [List.length_append] at hplt
        omega
      have := getUsersTemplates_parent users _ hmem
      rw [hpp] at this
      exact absurd this (by decide)
    have ep := list_getD_append_left kubeCertTemplates (getUsersTemplates users) p.1
      (by omega)
    rw [hpeq, ep] at hpp hpath
    rw [ei] at hpar hpath
    have hfst : p.1 = i := static_authority_paths_inj i h16 p.1 hp16 hpar hpp hpath
    have hsnd : p.2 = (kubeCertTemplates ++ getUsersTemplates users).getD i default := by
      rw [hpeq, hfst]
    exact Prod.ext hfst hsnd

/-- Closed witness for `C10_authority_map_invariant`: on an empty topology
with no users, the primary authority's path resolves to its descriptor. -/
theorem C10_witness :
    ∃ ci, caMapGet
        (RenderCertTemplates (kubeCertTemplates ++ getUsersTemplates "") ⟨[], [], [], []⟩).caMap
        "/etc/kubernetes/pki/ca" = some ci ∧
      ci < (RenderCertTemplates (kubeCertTemplates ++ getUsersTemplates "") ⟨[], [], [], []⟩).all.length ∧
      (RenderCertTemplates (kubeCertTemplates ++ getUsersTemplates "") ⟨[], [], [], []⟩).all.getD
          ci default =
        MakeKubeCertFromTemplate ⟨[], [], [], []⟩
          ((kubeCertTemplates ++ getUsersTemplates "").getD 0 default) 0 "" "" :=
  C10_authority_map_invariant ⟨[], [], [], []⟩ "" 0 (by decide) (by decide)

/-! ## sslutil: keys, certificates, signing (src/internal/sslutil)

The raw cryptography is an external collaborator (spec §1, §4.4): a private
key is an abstract identifier, a signature is modelled by recording which
key signed, and `x509.CreateCertificate` + `ParseCertificate` round-trips
by construction.  The address-literal parser (`net.ParseIP`) is likewise
external; it is modelled as a pure classifier (spec §4.3: "an
address-literal parser decides" which certificate field a name lands in),
names passing through verbatim. -/

/-- An abstract private key; `PublicKey` of a key is the key itself. -/
abbrev PrivKey := Nat

/-- `math.MaxInt64`, bound of the serial draw (`rand.Int(reader, MaxInt64)`
is uniform on `[0, MaxInt64)`). -/
def maxInt64 : Nat := 2 ^ 63 - 1

/-- The fields of a parsed `x509.Certificate` that the repository reads or
writes. -/
structure Cert where
  commonName : String
  organization : List String
  dnsNames : List String
  ipAddresses : List String
  serial : Nat
  extKeyUsage : List ExtKeyUsage
  isCA : Bool
  keyUsageCertSign : Bool
  signerKey : PrivKey
  pubKey : PrivKey
deriving DecidableEq, Inhabited

/-- `sslutil.AltNames`. -/
structure AltNames where
  DNSNames : List String
  IPs : List String
deriving DecidableEq

/-- `sslutil.CertConf`, restricted to the fields the repository sets. -/
structure CertConf where
  Validity : Nat
  CommonName : String
  Organization : List String
  AltNames : AltNames
  Usages : List ExtKeyUsage
deriving DecidableEq

/-- Model of the external address-literal classifier (`net.ParseIP ≠ nil`):
an IPv6-looking literal (contains a colon) or a dotted quad of digit
groups.  Names pass through verbatim; only the classification matters to
the engine. -/
def isIPLiteral (s : String) : Bool :=
  s.data.contains ':' ||
    (let parts := goSplit '.' s
     parts.length == 4 && parts.all (fun p => p ≠ "" && p.data.all Char.isDigit))

/-- One step of the per-name loop of `NewCertConfig`: dedup by the
`mapToUniq` map and classify each first occurrence into the IP or DNS
list. -/
def classifyStep (acc : List String × AltNames) (name : String) :
    List String × AltNames :=
  if name ∈ acc.1 then acc
  else (acc.1 ++ [name],
    if isIPLiteral name then ⟨acc.2.DNSNames, acc.2.IPs ++ [name]⟩
    else ⟨acc.2.DNSNames ++ [name], acc.2.IPs⟩)

/-- The whole per-name loop of `NewCertConfig`. -/
def classifyAltNames (altnames : List String) : List String × AltNames :=
  altnames.foldl classifyStep ([], ⟨[], []⟩)

/-- `sslutil.NewCertConfig`.  Note: the function has no usages parameter
and never assigns `CertConf.Usages`, so the configuration always carries an
empty extended-key-usage list. -/
def NewCertConfig (validity : Nat) (commonname : String)
    (organization : List String) (altnames : List String) : CertConf :=
  let org := if organization.length > 0 ∧ organization.headD "" ≠ "" then organization
    else []
  let cls := classifyAltNames altnames
  { Validity := validity, CommonName := commonname, Organization := org,
    AltNames := cls.2, Usages := [] }

/-- `sslutil.SelfSignedCaKey` with `caKey == nil`: the caller supplies the
freshly generated key.  The template sets only subject, serial `0`, CA
flags and signing key usage; no subject-alternative names. -/
def SelfSignedCaKey (cfg : CertConf) (key : PrivKey) : Cert × PrivKey :=
  ({ commonName := cfg.CommonName, organization := cfg.Organization,
     dnsNames := [], ipAddresses := [], serial := 0, extKeyUsage := [],
     isCA := true, keyUsageCertSign := true, signerKey := key, pubKey := key },
   key)

/-- `sslutil.SelfSignedCertKey` with `certKey == nil`: `key` is the fresh
subject key and `serialDraw` the raw random value behind
`rand.Int(rand.Reader, MaxInt64)`. -/
def SelfSignedCertKey (cfg : CertConf) (caCert : Cert) (caKey : PrivKey)
    (key : PrivKey) (serialDraw : Nat) : Cert × PrivKey :=
  ({ commonName := cfg.CommonName, organization := cfg.Organization,
     dnsNames := cfg.AltNames.DNSNames, ipAddresses := cfg.AltNames.IPs,
     serial := serialDraw % maxInt64, extKeyUsage := cfg.Usages,
     isCA := false, keyUsageCertSign := false, signerKey := caKey, pubKey := key },
   key)

/-- `x509.Certificate.CheckSignature` on the certificate itself: the
signature verifies against the certificate's *embedded* public key. -/
def checkSignatureSelf (crt : Cert) : Bool :=
  crt.signerKey == crt.pubKey

/-- `sslutil.VerifyCrtSignature`, transcribed with its slip: the source
builds `certcopy` carrying the loaded key's public key, but then calls
`crt.CheckSignature` on the original `crt` again, so the loaded `key` never
participates in the verification. -/
def VerifyCrtSignature (crt : Cert) (key : PrivKey) : Bool :=
  if checkSignatureSelf crt then
    let certcopy : Cert := { crt with pubKey := key }
    checkSignatureSelf crt
  else false

/-- `x509.Certificate.CheckSignatureFrom`: the parent must be a usable CA
(BasicConstraints CA and, when key usage is present, the cert-sign bit) and
the child's signature must verify under the parent's public key. -/
def CheckSignatureFrom (child parent : Cert) : Bool :=
  parent.isCA && parent.keyUsageCertSign && (child.signerKey == parent.pubKey)

/-- `sslutil.GetAllSans`: DNS names then stringified IP addresses. -/
def GetAllSans (crt : Cert) : List String :=
  crt.dnsNames ++ crt.ipAddresses

/-! ## Storage Port and PEM blobs

Artifacts live at `<writePath> + ".crt"/".key"/".pub"`.  Since the three
suffixes are distinct and appended injectively, a path is modelled as the
pair of the base path and the artifact kind. -/

/-- The artifact suffix (`.crt` / `.key` / `.pub`). -/
inductive ArtifactKind where
  | crt
  | key
  | pub
deriving DecidableEq

/-- A storage path: base path plus suffix. -/
abbrev PathKey := String × ArtifactKind

/-- A stored byte blob, by PEM content; encode/parse round-trips by
construction, matching the external encoder contract. -/
inductive Blob where
  | certPEM (c : Cert)
  | keyPEM (k : PrivKey)
  | pubPEM (k : PrivKey)
  | raw (s : String)
deriving DecidableEq

/-- The Storage Port's backing state. -/
abbrev Storage := List (PathKey × Blob)

/-- `read(path)`: `none` models the `NotFound`/read error. -/
def storeGet (s : Storage) (p : PathKey) : Option Blob :=
  (s.find? (fun q => q.1 = p)).map Prod.snd

/-- `write(path, bytes)`: overwrite or create. -/
def storeWrite (s : Storage) (p : PathKey) (b : Blob) : Storage :=
  if s.any (fun q => q.1 = p) then s.map (fun q => if q.1 = p then (p, b) else q)
  else s ++ [(p, b)]

/-- `sslutil.LoadCrtAndKeyFromPEM`: both blobs must parse. -/
def LoadCrtAndKeyFromPEM (certB keyB : Blob) : Option (Cert × PrivKey) :=
  match certB, keyB with
  | Blob.certPEM c, Blob.keyPEM k => some (c, k)
  | _, _ => none

/-! ## Reconciliation Engine (kubecerts.CheckCreateCerts) -/

/-- `kubecerts.cmpWithDefinition`: common name equality, then organisation
and subject-alternative-name sets via `UniqueStringSliceCmp`.  `true`
stands for `err == nil`. -/
def cmpWithDefinition (crt : Cert) (defn : KubeCert) : Bool :=
  crt.commonName == defn.commonName &&
    UniqueStringSliceCmp crt.organization defn.organisation &&
    UniqueStringSliceCmp (GetAllSans crt) defn.sans

/-- A processed descriptor: the descriptor together with the certificate
and key that ended up in its mutable `cert`/`key` slots. -/
structure ProcCert where
  desc : KubeCert
  cert : Cert
  key : PrivKey
deriving DecidableEq, Inhabited

/-- `AllKubeCerts[KubeCAMap[parent]]`: a missing map key yields Go's zero
value `0`; an index outside the processed prefix dereferences a descriptor
whose certificate is still nil (a crash once used). -/
def resolveParent (done : List ProcCert) (caMap : List (String × Nat))
    (parent : String) : Option ProcCert :=
  done.get? ((caMapGet caMap parent).getD 0)

/-- Stages 2–3 of the per-descriptor loop: read certificate bytes, read key
bytes (both failures record `error loading certificate`, as in the source),
then parse. -/
def loadStage (store : Storage) (d : KubeCert) :
    String × Option (Cert × PrivKey) :=
  match storeGet store (d.readPath, ArtifactKind.crt) with
  | none => ("error loading certificate", none)
  | some certB =>
    match storeGet store (d.readPath, ArtifactKind.key) with
    | none => ("error loading certificate", none)
    | some keyB =>
      match LoadCrtAndKeyFromPEM certB keyB with
      | none => ("error loading cert or key from PEM format", none)
      | some ck => ("", some ck)

/-- Stages 4–6: the signature check (self-signed for an authority, chained
to the processed parent otherwise) then definition conformance.  `some r`
is the resulting `failed` string (`""` = valid); `none` models the nil
dereference that Go performs when the parent lookup misses. -/
def validateStage (tpls : List KubeCertTemplate) (caMap : List (String × Nat))
    (done : List ProcCert) (d : KubeCert) (c : Cert) (k : PrivKey) :
    Option String :=
  if (tpls.getD d.templateIdx default).parent = "" then
    if VerifyCrtSignature c k then
      if cmpWithDefinition c d then some ""
      else some "cert not emitted according to definition"
    else some "error verifying cert signature"
  else
    match resolveParent done caMap ((tpls.getD d.templateIdx default).parent) with
    | none => none
    | some pc =>
      if CheckSignatureFrom c pc.cert then
        if cmpWithDefinition c d then some ""
        else some "cert not emitted according to definition"
      else some "cert not emitted by parent CA"

/-- `kubecerts.genCrt`: build the config from the descriptor's identity and
issue, self-signed for an authority, signed by the looked-up parent for a
leaf.  `rnd`/`ctr` supply the random key and serial draws; `none` models
the nil dereference on a missing parent. -/
def genCrt (tpls : List KubeCertTemplate) (caMap : List (String × Nat))
    (done : List ProcCert) (d : KubeCert) (rnd : Nat → Nat) (ctr : Nat) :
    Option (Cert × PrivKey × Nat) :=
  if (tpls.getD d.templateIdx default).parent = "" then
    some ((SelfSignedCaKey (NewCertConfig 0 d.commonName d.organisation d.sans)
        (rnd ctr)).1,
      (SelfSignedCaKey (NewCertConfig 0 d.commonName d.organisation d.sans)
        (rnd ctr)).2, ctr + 1)
  else
    match resolveParent done caMap ((tpls.getD d.templateIdx default).parent) with
    | none => none
    | some pc =>
      some ((SelfSignedCertKey (NewCertConfig 0 d.commonName d.organisation d.sans)
          pc.cert pc.key (rnd ctr) (rnd (ctr + 1))).1,
        (SelfSignedCertKey (NewCertConfig 0 d.commonName d.organisation d.sans)
          pc.cert pc.key (rnd ctr) (rnd (ctr + 1))).2, ctr + 2)

/-- The state threaded through `CheckCreateCerts`: processed descriptors,
the storage, the run-level `Changed` flag, the write log, the random-draw
counter, and the abort condition (`panic` or a generation error). -/
structure EngineSt where
  done : List ProcCert
  store : Storage
  changed : Bool
  writes : List PathKey
  ctr : Nat
  err : Option String
deriving DecidableEq

/-- The full load-and-validate phase for one descriptor (stages 2–6): the
per-descriptor `failed` reason at the outcome-policy decision point
(`some ""` = valid, `none` = crash on a missing parent). -/
def checkFailure (tpls : List KubeCertTemplate) (caMap : List (String × Nat))
    (done : List ProcCert) (store : Storage) (d : KubeCert) : Option String :=
  let lr := loadStage store d
  match lr.2 with
  | some ck =>
    if lr.1 = "" then validateStage tpls caMap done d ck.1 ck.2
    else some lr.1
  | none => some lr.1

/-- One iteration of the `CheckCreateCerts` loop over one descriptor. -/
def certStep (forceRegen overWrite : Bool) (tpls : List KubeCertTemplate)
    (caMap : List (String × Nat)) (rnd : Nat → Nat) (st : EngineSt)
    (d : KubeCert) : EngineSt :=
  if st.err.isSome then st
  else
    let fv : Option String :=
      if forceRegen then some "ForceRegen"
      else checkFailure tpls caMap st.done st.store d
    match fv with
    | none => { st with err := some "nil pointer dereference" }
    | some failed =>
      if forceRegen || (failed ≠ "" && overWrite) then
        match genCrt tpls caMap st.done d rnd st.ctr with
        | none => { st with err := some "nil pointer dereference" }
        | some (c, k, ctr') =>
          let store1 := storeWrite st.store (d.writePath, ArtifactKind.crt) (Blob.certPEM c)
          let store2 := storeWrite store1 (d.writePath, ArtifactKind.key) (Blob.keyPEM k)
          { done := st.done ++ [⟨d, c, k⟩], store := store2, changed := true,
            writes := st.writes ++ [(d.writePath, ArtifactKind.crt),
              (d.writePath, ArtifactKind.key)],
            ctr := ctr', err := none }
      else if failed = "" then
        match (loadStage st.store d).2 with
        | some ck => { st with done := st.done ++ [⟨d, ck.1, ck.2⟩] }
        | none => { st with err := some "unreachable" }
      else
        { st with err := some "certificate check failed and OverWrite forbidden" }

/-- `kubecerts.CheckCreateCerts` over an already-rendered descriptor list.
`Changed` starts false at process start. -/
def runCerts (forceRegen overWrite : Bool) (tpls : List KubeCertTemplate)
    (caMap : List (String × Nat)) (rnd : Nat → Nat) (descs : List KubeCert)
    (store : Storage) : EngineSt :=
  descs.foldl (certStep forceRegen overWrite tpls caMap rnd)
    ⟨[], store, false, [], 0, none⟩

/-! ## Companion key-pair reconciliation (kubekeys.CheckCreateKeys) -/

/-- `kubekeys.KubeKeyTemplate`. -/
structure KubeKeyTemplate where
  path : String
  nodes : List String := []
deriving DecidableEq

/-- `kubekeys.KubeKeyTemplates`: the single cluster signing key. -/
def KubeKeyTemplates : List KubeKeyTemplate := [{ path := "/etc/kubernetes/pki/sa" }]

/-- The state threaded through `CheckCreateKeys`. -/
structure KeySt where
  store : Storage
  changed : Bool
  writes : List PathKey
  ctr : Nat
  err : Option String
deriving DecidableEq

/-- One iteration of the `CheckCreateKeys` loop: read private then public
blob, parse the private key, re-encode its public key and compare the
bytes; regenerate-and-write (public first, then private) or keep or
panic.  The failure strings are the source's (including their slips). -/
def keyStep (forceRegen overWrite : Bool) (rnd : Nat → Nat) (st : KeySt)
    (tpl : KubeKeyTemplate) : KeySt :=
  if st.err.isSome then st
  else
    let path := GlobalPath ++ tpl.path
    let fr0 := if forceRegen then "ForceRegen" else ""
    let lr : String × Option PrivKey :=
      if fr0 ≠ "" then (fr0, none)
      else
        match storeGet st.store (path, ArtifactKind.key) with
        | none => ("error loading public key", none)
        | some privB =>
          match storeGet st.store (path, ArtifactKind.pub) with
          | none => ("error private key", none)
          | some pubB =>
            match privB with
            | Blob.keyPEM k =>
              if pubB = Blob.pubPEM k then ("", some k)
              else ("error public and private keys do not match", none)
            | _ => ("error private key from pem", none)
    if forceRegen || (lr.1 ≠ "" && overWrite) then
      let k := rnd st.ctr
      let store1 := storeWrite st.store (path, ArtifactKind.pub) (Blob.pubPEM k)
      let store2 := storeWrite store1 (path, ArtifactKind.key) (Blob.keyPEM k)
      { store := store2, changed := true,
        writes := st.writes ++ [(path, ArtifactKind.pub), (path, ArtifactKind.key)],
        ctr := st.ctr + 1, err := none }
    else if lr.1 = "" then st
    else { st with err := some "certificate check failed and OverWrite forbidden" }

/-- `kubekeys.CheckCreateKeys`. -/
def runKeys (forceRegen overWrite : Bool) (rnd : Nat → Nat)
    (ktpls : List KubeKeyTemplate) (store : Storage) (ctr : Nat) : KeySt :=
  ktpls.foldl (keyStep forceRegen overWrite rnd) ⟨store, false, [], ctr, none⟩

/-- The `kubecerts` command path of `main`: reconcile certificates, then
(if that did not abort) keys, on the same storage; the process-level
changed signal is the disjunction. -/
def fullRun (tpls : List KubeCertTemplate) (caMap : List (String × Nat))
    (rnd : Nat → Nat) (descs : List KubeCert) (ktpls : List KubeKeyTemplate)
    (store : Storage) : EngineSt × KeySt :=
  let ce := runCerts false true tpls caMap rnd descs store
  if ce.err.isSome then (ce, ⟨ce.store, false, [], ce.ctr, some "skipped"⟩)
  else (ce, runKeys false true rnd ktpls ce.store ce.ctr)

/-- **C6** (code-bug evaluation): `VerifyCrtSignature` accepts a
self-consistent self-signed certificate together with a loaded private key
that did *not* sign it.  The source constructs `certcopy` with the loaded
key's public key but then re-verifies the original certificate, so the
loaded key never participates: the claim "verification fails whenever the
loaded private key does not match the key that signed the certificate" is
what the dead `certcopy` line was meant to implement. -/
theorem C6_verify_ignores_loaded_key :
    VerifyCrtSignature
        { commonName := "kubernetes", organization := [], dnsNames := [],
          ipAddresses := [], serial := 0, extKeyUsage := [], isCA := true,
          keyUsageCertSign := true, signerKey := 1, pubKey := 1 } 2 = true ∧
      (2 : PrivKey) ≠ 1 := by
  exact ⟨rfl, by decide⟩

/-- **C3** (code-bug evaluation): regenerating the apiserver leaf
(catalog index 3, declared usages `[serverAuth]`) through the repository's
own `genCrt`/`NewCertConfig`/`SelfSignedCertKey` chain yields a certificate
signed by the parent key (7), carrying the descriptor's common name and
subject-alternative names and a serial drawn from the random stream reduced
modulo `MaxInt64` — but an *empty* extended-key-usage list, because
`NewCertConfig` has no usages parameter and `CertConf.Usages` is never
assigned.  The template's declared usages never reach the certificate. -/
theorem C3_leaf_generation_drops_extended_key_usages :
    genCrt kubeCertTemplates [("/etc/kubernetes/pki/ca", 0)]
        [⟨default,
          { commonName := "kubernetes", organization := [], dnsNames := [],
            ipAddresses := [], serial := 0, extKeyUsage := [], isCA := true,
            keyUsageCertSign := true, signerKey := 7, pubKey := 7 }, 7⟩]
        { node := "m1", commonName := "kube-apiserver", organisation := [],
          sans := ["kapi", "10.0.0.1"], templateIdx := 3, readPath := "p",
          writePath := "p" }
        (fun n => n + 100) 0 =
      some ({ commonName := "kube-apiserver", organization := [],
              dnsNames := ["kapi"], ipAddresses := ["10.0.0.1"], serial := 101,
              extKeyUsage := [], isCA := false, keyUsageCertSign := false,
              signerKey := 7, pubKey := 100 }, 100, 2) ∧
      (kubeCertTemplates.getD 3 default).usages = [ExtKeyUsage.serverAuth] := by
  exact ⟨by decide, by decide⟩

/-- **C2**: with force-regeneration off and overwrite forbidden, a
descriptor whose failure reason is non-empty at the decision point makes
the engine abort (the `panic` branch) without touching storage; and a whole
run under that policy performs no write at all and leaves the storage
byte-identical, whether it aborts or not. -/
theorem C2_policy_violation_is_fatal (tpls : List KubeCertTemplate)
    (caMap : List (String × Nat)) (rnd : Nat → Nat) (descs : List KubeCert)
    (store : Storage) :
    (∀ (st : EngineSt) (d : KubeCert) (r : String), st.err = none →
        checkFailure tpls caMap st.done st.store d = some r → r ≠ "" →
        (certStep false false tpls caMap rnd st d).err.isSome = true ∧
        (certStep false false tpls caMap rnd st d).store = st.store ∧
        (certStep false false tpls caMap rnd st d).writes = st.writes ∧
        (certStep false false tpls caMap rnd st d).changed = st.changed)
    ∧ ((runCerts false false tpls caMap rnd descs store).writes = [] ∧
        (runCerts false false tpls caMap rnd descs store).store = store ∧
        (runCerts false false tpls caMap rnd descs store).changed = false) := by
  have hstep : ∀ (st : EngineSt) (d : KubeCert),
      (certStep false false tpls caMap rnd st d).store = st.store ∧
      (certStep false false tpls caMap rnd st d).writes = st.writes ∧
      (certStep false false tpls caMap rnd st d).changed = st.changed := by
    intro st d
    unfold certStep
    split
    · exact ⟨rfl, rfl, rfl⟩
    · simp only [Bool.false_eq_true, if_false, false_or, Bool.and_false]
      cases hf : checkFailure tpls caMap st.done st.store d with
      | none => exact ⟨rfl, rfl, rfl⟩
      | some failed =>
        simp only [Bool.or_self, Bool.false_eq_true, if_false]
        split
        · cases (loadStage st.store d).2 with
          | some ck => exact ⟨rfl, rfl, rfl⟩
          | none => exact ⟨rfl, rfl, rfl⟩
        · exact ⟨rfl, rfl, rfl⟩
  constructor
  · intro st d r herr hf hr
    refine ⟨?_, (hstep st d).1, (hstep st d).2.1, (hstep st d).2.2⟩
    unfold certStep
    rw [herr]
    simp only [Option.isSome_none, Bool.false_eq_true, if_false, hf]
    rw [if_neg (by simp), if_neg hr]
    rfl
  · have : ∀ (l : List KubeCert) (st : EngineSt),
        (l.foldl (certStep false false tpls caMap rnd) st).store = st.store ∧
        (l.foldl (certStep false false tpls caMap rnd) st).writes = st.writes ∧
        (l.foldl (certStep false false tpls caMap rnd) st).changed = st.changed := by
      intro l
      induction l with
      | nil => intro st; exact ⟨rfl, rfl, rfl⟩
      | cons d rest ih =>
        intro st
        rw [List.foldl_cons]
        obtain ⟨h1, h2, h3⟩ := ih (certStep false false tpls caMap rnd st d)
        obtain ⟨g1, g2, g3⟩ := hstep st d
        exact ⟨h1.trans g1, h2.trans g2, h3.trans g3⟩
    obtain ⟨h1, h2, h3⟩ := this descs ⟨[], store, false, [], 0, none⟩
    exact ⟨h2, h1, h3⟩

/-- Closed witness for `C2_policy_violation_is_fatal`: an empty storage
yields the reason `error loading certificate`, and with overwrite forbidden
the step aborts without writing. -/
theorem C2_witness :
    (certStep false false kubeCertTemplates [] (fun n => n)
        ⟨[], [], false, [], 0, none⟩ default).err.isSome = true ∧
      (certStep false false kubeCertTemplates [] (fun n => n)
        ⟨[], [], false, [], 0, none⟩ default).store = [] := by
  have h := (C2_policy_violation_is_fatal kubeCertTemplates [] (fun n => n) []
    ([] : Storage)).1 ⟨[], [], false, [], 0, none⟩ default
    "error loading certificate" rfl (by decide) (by decide)
  exact ⟨h.1, h.2.1⟩

/-- **C4**: a storage read failure — the certificate *or* the key blob
fails to load — is recorded as the per-descriptor reason
`error loading certificate`; with overwrite permitted and
force-regeneration off, the step regenerates, writes that descriptor's
certificate then key at its write path, raises the changed flag and does
*not* abort the run. -/
theorem C4_read_failure_triggers_regeneration (tpls : List KubeCertTemplate)
    (caMap : List (String × Nat)) (rnd : Nat → Nat) (st : EngineSt)
    (d : KubeCert) (c : Cert) (k : PrivKey) (ctr' : Nat)
    (herr : st.err = none)
    (hmiss : storeGet st.store (d.readPath, ArtifactKind.crt) = none ∨
      storeGet st.store (d.readPath, ArtifactKind.key) = none)
    (hgen : genCrt tpls caMap st.done d rnd st.ctr = some (c, k, ctr')) :
    checkFailure tpls caMap st.done st.store d = some "error loading certificate" ∧
      certStep false true tpls caMap rnd st d =
        { done := st.done ++ [⟨d, c, k⟩],
          store := storeWrite (storeWrite st.store (d.writePath, ArtifactKind.crt)
            (Blob.certPEM c)) (d.writePath, ArtifactKind.key) (Blob.keyPEM k),
          changed := true,
          writes := st.writes ++ [(d.writePath, ArtifactKind.crt),
            (d.writePath, ArtifactKind.key)],
          ctr := ctr', err := none } := by
  have hcf : checkFailure tpls caMap st.done st.store d =
      some "error loading certificate" := by
    unfold checkFailure loadStage
    rcases hmiss with hm | hm
    · rw [hm]
    · cases hc : storeGet st.store (d.readPath, ArtifactKind.crt) with
      | none => rfl
      | some certB => rw [hm]
  refine ⟨hcf, ?_⟩
  unfold certStep
  rw [herr]
  simp only [Option.isSome_none, Bool.false_eq_true, if_false, hcf]
  rw [if_pos (by decide)]
  rw [hgen]

/-- A stale certificate blob stranded in storage without its companion
key, for exercising the key-read-failure branch. -/
def C4staleStore : Storage :=
  [(("global/etc/kubernetes/pki/ca", ArtifactKind.crt),
    Blob.certPEM
      { commonName := "stale", organization := [], dnsNames := [],
        ipAddresses := [], serial := 7, extKeyUsage := [], isCA := false,
        keyUsageCertSign := false, signerKey := 9, pubKey := 9 })]

/-- Closed witness for `C4_read_failure_triggers_regeneration`: the
certificate blob is present but its key blob fails to load, and the step
still records `error loading certificate` and regenerates. -/
theorem C4_witness :
    checkFailure kubeCertTemplates [] [] C4staleStore
        { node := "", commonName := "kubernetes", organisation := [], sans := [],
          templateIdx := 0, readPath := "global/etc/kubernetes/pki/ca",
          writePath := "global/etc/kubernetes/pki/ca" } =
      some "error loading certificate" ∧
      certStep false true kubeCertTemplates [] (fun n => n + 5)
          ⟨[], C4staleStore, false, [], 0, none⟩
          { node := "", commonName := "kubernetes", organisation := [], sans := [],
            templateIdx := 0, readPath := "global/etc/kubernetes/pki/ca",
            writePath := "global/etc/kubernetes/pki/ca" } =
        { done := [⟨{ node := "", commonName := "kubernetes", organisation := [],
                      sans := [], templateIdx := 0,
                      readPath := "global/etc/kubernetes/pki/ca",
                      writePath := "global/etc/kubernetes/pki/ca" },
            { commonName := "kubernetes", organization := [], dnsNames := [],
              ipAddresses := [], serial := 0, extKeyUsage := [], isCA := true,
              keyUsageCertSign := true, signerKey := 5, pubKey := 5 }, 5⟩],
          store := storeWrite (storeWrite C4staleStore
            ("global/etc/kubernetes/pki/ca", ArtifactKind.crt)
            (Blob.certPEM { commonName := "kubernetes", organization := [],
                            dnsNames := [], ipAddresses := [], serial := 0,
                            extKeyUsage := [], isCA := true,
                            keyUsageCertSign := true, signerKey := 5, pubKey := 5 }))
            ("global/etc/kubernetes/pki/ca", ArtifactKind.key) (Blob.keyPEM 5),
          changed := true,
          writes := [("global/etc/kubernetes/pki/ca", ArtifactKind.crt),
            ("global/etc/kubernetes/pki/ca", ArtifactKind.key)],
          ctr := 1, err := none } :=
  C4_read_failure_triggers_regeneration kubeCertTemplates [] (fun n => n + 5)
    ⟨[], C4staleStore, false, [], 0, none⟩ _ _ 5 1 rfl (Or.inr (by decide))
    (by decide)

/-! ### C1: idempotence of reconciliation

Well-formedness of a rendered descriptor list (all of it holds of the
Identity Materializer's output over any topology): equal read/write paths,
duplicate-free SANs, an organisation that is empty or headed by a non-empty
name, no SANs on authorities, pairwise distinct storage paths, and parent
references resolving through the authority map to an *earlier* authority
descriptor. -/

/-- Per-descriptor shape conditions. -/
def DescWfB (tpls : List KubeCertTemplate) (d : KubeCert) : Bool :=
  d.readPath == d.writePath &&
    decide d.sans.Nodup &&
    (d.organisation.isEmpty ||
      (decide (d.organisation.headD "" ≠ "") && decide d.organisation.Nodup)) &&
    (((tpls.getD d.templateIdx default).parent != "") || d.sans.isEmpty)

/-- Parent resolution for the descriptor at position `i`: the authority map
hits, points strictly earlier, and at an authority-templated descriptor. -/
def parentOkB (tpls : List KubeCertTemplate) (caMap : List (String × Nat))
    (descs : List KubeCert) (i : Nat) : Bool :=
  let d := descs.getD i default
  let tpl := tpls.getD d.templateIdx default
  if tpl.parent = "" then true
  else
    match caMapGet caMap tpl.parent with
    | none => false
    | some j => decide (j < i) &&
        ((tpls.getD (descs.getD j default).templateIdx default).parent == "")

/-- Well-formedness of the whole rendered descriptor list. -/
def DescsWfB (tpls : List KubeCertTemplate) (caMap : List (String × Nat))
    (descs : List KubeCert) : Bool :=
  descs.all (DescWfB tpls) &&
    decide (descs.map (fun d => d.readPath)).Nodup &&
    (List.range descs.length).all (parentOkB tpls caMap descs)

/-- Pre-run storage condition on authority paths: whatever certificate/key
pair is already stored at an authority's path is a CA-capable matching
pair.  (The engine's own authority check cannot enforce this: its
self-signature verification neither checks the CA bits nor — by the
`VerifyCrtSignature` slip — the stored key.) -/
def authStoreOkB (tpls : List KubeCertTemplate) (descs : List KubeCert)
    (store : Storage) : Bool :=
  descs.all (fun d =>
    if (tpls.getD d.templateIdx default).parent = "" then
      match storeGet store (d.readPath, ArtifactKind.crt) with
      | some (Blob.certPEM c) =>
        c.isCA && c.keyUsageCertSign &&
          (match storeGet store (d.readPath, ArtifactKind.key) with
           | some (Blob.keyPEM k) => c.pubKey == k
           | _ => true)
      | _ => true
    else true)

/-- The key-pair engine's paths are duplicate-free and disjoint from the
certificate descriptors' paths. -/
def keysWfB (descs : List KubeCert) (ktpls : List KubeKeyTemplate) : Bool :=
  decide (ktpls.map (fun t => GlobalPath ++ t.path)).Nodup &&
    ktpls.all (fun t => descs.all (fun d => d.readPath != GlobalPath ++ t.path))

/-! Inversion and frame lemmas for the engine stages. -/

theorem storeGet_cons (q : PathKey × Blob) (rest : Storage) (p : PathKey) :
    storeGet (q :: rest) p = if q.1 = p then some q.2 else storeGet rest p := by
  unfold storeGet
  rw [List.find?_cons]
  by_cases h : q.1 = p <;> simp [h]

theorem storeGet_write_self (s : Storage) (p : PathKey) (b : Blob) :
    storeGet (storeWrite s p b) p = some b := by
  unfold storeWrite
  split
  · next hany =>
    induction s with
    | nil => simp at hany
    | cons q rest ih =>
      rw [List.map_cons, storeGet_cons]
      by_cases hq : q.1 = p
      · simp [hq]
      · rw [if_neg hq, if_neg hq]
        apply ih
        simp only [List.any_cons, Bool.or_eq_true, decide_eq_true_eq] at hany
        rcases hany with h | h
        · exact absurd h hq
        · simpa using h
  · induction s with
    | nil =>
      rw [List.nil_append, storeGet_cons]
      simp
    | cons q rest ih =>
      next hany =>
      rw [List.cons_append, storeGet_cons]
      have hq : q.1 ≠ p := by
        intro he
        exact hany (by simp [he])
      rw [if_neg hq]
      apply ih
      intro hr
      exact hany (by simp only [List.any_cons, Bool.or_eq_true]; exact Or.inr hr)

theorem storeGet_map_other (s : Storage) (p q : PathKey) (b : Blob)
    (hne : q ≠ p) :
    storeGet (s.map (fun r => if r.1 = p then (p, b) else r)) q = storeGet s q := by
  induction s with
  | nil => rfl
  | cons r rest ih =>
    rw [List.map_cons, storeGet_cons, storeGet_cons]
    by_cases hr : r.1 = p
    · rw [if_pos hr,
        if_neg (show ¬((p, b).1 = q) from fun he => hne he.symm),
        if_neg (show ¬(r.1 = q) from fun he => hne (by rw [← he]; exact hr))]
      exact ih
    · rw [if_neg hr]
      by_cases hq : r.1 = q
      · rw [if_pos hq, if_pos hq]
      · rw [if_neg hq, if_neg hq]
        exact ih

theorem storeGet_append_other (s : Storage) (p q : PathKey) (b : Blob)
    (hne : q ≠ p) : storeGet (s ++ [(p, b)]) q = storeGet s q := by
  induction s with
  | nil =>
    rw [List.nil_append, storeGet_cons,
      if_neg (show ¬((p, b).1 = q) from fun he => hne he.symm)]
  | cons r rest ih =>
    rw [List.cons_append, storeGet_cons, storeGet_cons]
    by_cases hq : r.1 = q
    · rw [if_pos hq, if_pos hq]
    · rw [if_neg hq, if_neg hq]
      exact ih

theorem storeGet_write_other (s : Storage) (p q : PathKey) (b : Blob)
    (hne : q ≠ p) : storeGet (storeWrite s p b) q = storeGet s q := by
  unfold storeWrite
  split
  · exact storeGet_map_other s p q b hne
  · exact storeGet_append_other s p q b hne

theorem loadStage_of_gets (store : Storage) (d : KubeCert) (c : Cert) (k : PrivKey)
    (hc : storeGet store (d.readPath, ArtifactKind.crt) = some (Blob.certPEM c))
    (hk : storeGet store (d.readPath, ArtifactKind.key) = some (Blob.keyPEM k)) :
    loadStage store d = ("", some (c, k)) := by
  unfold loadStage
  rw [hc, hk]
  rfl

theorem loadStage_shape (store : Storage) (d : KubeCert) :
    loadStage store d = ("error loading certificate", none) ∨
      loadStage store d = ("error loading cert or key from PEM format", none) ∨
      ∃ ck, loadStage store d = ("", some ck) ∧
        storeGet store (d.readPath, ArtifactKind.crt) = some (Blob.certPEM ck.1) ∧
        storeGet store (d.readPath, ArtifactKind.key) = some (Blob.keyPEM ck.2) := by
  unfold loadStage
  cases hc : storeGet store (d.readPath, ArtifactKind.crt) with
  | none => exact Or.inl rfl
  | some certB =>
    cases hk : storeGet store (d.readPath, ArtifactKind.key) with
    | none => exact Or.inl rfl
    | some keyB =>
      cases certB with
      | certPEM c =>
        cases keyB with
        | keyPEM k => exact Or.inr (Or.inr ⟨(c, k), rfl, rfl, rfl⟩)
        | certPEM c2 => exact Or.inr (Or.inl rfl)
        | pubPEM k => exact Or.inr (Or.inl rfl)
        | raw s => exact Or.inr (Or.inl rfl)
      | keyPEM k => exact Or.inr (Or.inl rfl)
      | pubPEM k => exact Or.inr (Or.inl rfl)
      | raw s => exact Or.inr (Or.inl rfl)

theorem loadStage_ok_elim (store : Storage) (d : KubeCert)
    (ck : Cert × PrivKey) (h : (loadStage store d).2 = some ck) :
    loadStage store d = ("", some ck) ∧
      storeGet store (d.readPath, ArtifactKind.crt) = some (Blob.certPEM ck.1) ∧
      storeGet store (d.readPath, ArtifactKind.key) = some (Blob.keyPEM ck.2) := by
  rcases loadStage_shape store d with h1 | h1 | ⟨ck', h1, hc, hk⟩
  · rw [h1] at h; cases h
  · rw [h1] at h; cases h
  · rw [h1] at h
    have : ck' = ck := by injection h
    subst this
    exact ⟨h1, hc, hk⟩

theorem checkFailure_ok_elim (tpls : List KubeCertTemplate)
    (caMap : List (String × Nat)) (done : List ProcCert) (store : Storage)
    (d : KubeCert) (h : checkFailure tpls caMap done store d = some "") :
    ∃ ck, loadStage store d = ("", some ck) ∧
      validateStage tpls caMap done d ck.1 ck.2 = some "" := by
  unfold checkFailure at h
  rcases loadStage_shape store d with h1 | h1 | ⟨ck, h1, hc, hk⟩
  · rw [h1] at h
    simp at h
  · rw [h1] at h
    simp at h
  · rw [h1] at h
    simp only [if_pos rfl] at h
    exact ⟨ck, h1, h⟩

theorem checkFailure_of (tpls : List KubeCertTemplate)
    (caMap : List (String × Nat)) (done : List ProcCert) (store : Storage)
    (d : KubeCert) (c : Cert) (k : PrivKey)
    (hload : loadStage store d = ("", some (c, k)))
    (hval : validateStage tpls caMap done d c k = some "") :
    checkFailure tpls caMap done store d = some "" := by
  unfold checkFailure
  rw [hload]
  exact hval

theorem uniqueCmp_self {l : List String} (h : l.Nodup) :
    UniqueStringSliceCmp l l = true := by
  rw [uniqueStringSliceCmp_iff]
  refine ⟨rfl, ?_⟩
  rw [Finset.union_self, List.card_toFinset, h.dedup]

theorem classify_foldl_spec (l : List String) :
    ∀ (acc : List String × AltNames), acc.1.Nodup →
      (acc.2.DNSNames ++ acc.2.IPs).length = acc.1.length →
      (acc.2.DNSNames ++ acc.2.IPs).toFinset = acc.1.toFinset →
      (l.foldl classifyStep acc).1.Nodup ∧
        ((l.foldl classifyStep acc).2.DNSNames ++
          (l.foldl classifyStep acc).2.IPs).length =
          (l.foldl classifyStep acc).1.length ∧
        ((l.foldl classifyStep acc).2.DNSNames ++
          (l.foldl classifyStep acc).2.IPs).toFinset =
          (l.foldl classifyStep acc).1.toFinset ∧
        (l.foldl classifyStep acc).1.toFinset = acc.1.toFinset ∪ l.toFinset := by
  induction l with
  | nil =>
    intro acc h1 h2 h3
    exact ⟨h1, h2, h3, by simp⟩
  | cons name rest ih =>
    intro acc h1 h2 h3
    rw [List.foldl_cons]
    by_cases hm : name ∈ acc.1
    · have hstep : classifyStep acc name = acc := by
        unfold classifyStep
        rw [if_pos hm]
      rw [hstep]
      obtain ⟨g1, g2, g3, g4⟩ := ih acc h1 h2 h3
      refine ⟨g1, g2, g3, ?_⟩
      rw [g4, List.toFinset_cons]
      ext x
      simp only [Finset.mem_union, Finset.mem_insert, List.mem_toFinset]
      constructor
      · rintro (h | h)
        · exact Or.inl h
        · exact Or.inr (Or.inr h)
      · rintro (h | h | h)
        · exact Or.inl h
        · exact Or.inl (by rw [h]; exact hm)
        · exact Or.inr h
    · have hstep : classifyStep acc name = (acc.1 ++ [name],
          if isIPLiteral name then ⟨acc.2.DNSNames, acc.2.IPs ++ [name]⟩
          else ⟨acc.2.DNSNames ++ [name], acc.2.IPs⟩) := by
        unfold classifyStep
        rw [if_neg hm]
      generalize halt : (if isIPLiteral name then
          (⟨acc.2.DNSNames, acc.2.IPs ++ [name]⟩ : AltNames)
          else ⟨acc.2.DNSNames ++ [name], acc.2.IPs⟩) = alt2 at hstep
      rw [hstep]
      have k1 : (acc.1 ++ [name]).Nodup := by
        rw [List.nodup_append]
        exact ⟨h1, List.nodup_singleton name, by simpa using hm⟩
      have k2 : (alt2.DNSNames ++ alt2.IPs).length = (acc.1 ++ [name]).length := by
        rw [← halt]
        simp only [List.length_append] at h2
        split <;>
          · simp only [List.length_append, List.length_cons, List.length_nil]
            omega
      have k3 : (alt2.DNSNames ++ alt2.IPs).toFinset = (acc.1 ++ [name]).toFinset := by
        rw [← halt]
        split <;>
          · ext x
            have hx := Finset.ext_iff.mp h3 x
            simp only [Finset.mem_union, List.mem_toFinset, List.toFinset_append,
              List.toFinset_cons, List.toFinset_nil, Finset.mem_insert,
              Finset.mem_singleton, List.mem_append, List.mem_singleton] at hx ⊢
            tauto
      obtain ⟨g1, g2, g3, g4⟩ := ih (acc.1 ++ [name], alt2) k1 k2 k3
      refine ⟨g1, g2, g3, ?_⟩
      rw [g4, List.toFinset_append, List.toFinset_cons]
      ext x
      simp only [Finset.mem_union, Finset.mem_insert, List.mem_toFinset,
        List.toFinset_cons, List.mem_singleton, List.toFinset_nil,
        Finset.mem_singleton]
      tauto

/-- The organisation shape under which the generated certificate's subject
organisation compares equal to the descriptor's. -/
def orgOk (org : List String) : Prop :=
  org = [] ∨ (org.headD "" ≠ "" ∧ org.Nodup)

theorem newCertConfig_org_cmp (cn : String) (org sans : List String)
    (h : orgOk org) :
    UniqueStringSliceCmp (NewCertConfig 0 cn org sans).Organization org = true := by
  have horg : (NewCertConfig 0 cn org sans).Organization =
      (if org.length > 0 ∧ org.headD "" ≠ "" then org else []) := rfl
  rcases h with h | ⟨hne, hnd⟩
  · subst h
    rw [horg, if_neg (by simp)]
    rfl
  · have hno : org ≠ [] := by
      intro he
      rw [he] at hne
      exact hne rfl
    rw [horg, if_pos ⟨List.length_pos.mpr hno, hne⟩]
    exact uniqueCmp_self hnd

theorem newCertConfig_sans_cmp (cn : String) (org sans : List String)
    (h : sans.Nodup) :
    UniqueStringSliceCmp ((NewCertConfig 0 cn org sans).AltNames.DNSNames ++
      (NewCertConfig 0 cn org sans).AltNames.IPs) sans = true := by
  obtain ⟨g1, g2, g3, g4⟩ := classify_foldl_spec sans ([], ⟨[], []⟩)
    List.nodup_nil rfl rfl
  have halt : (NewCertConfig 0 cn org sans).AltNames =
      (List.foldl classifyStep ([], ⟨[], []⟩) sans).2 := rfl
  rw [halt, uniqueStringSliceCmp_iff]
  have hsetr : (List.foldl classifyStep ([], ⟨[], []⟩) sans).1.toFinset =
      sans.toFinset := by
    rw [g4]
    simp
  have hlen1 : (List.foldl classifyStep ([], ⟨[], []⟩) sans).1.length = sans.length := by
    have hc1 : (List.foldl classifyStep ([], ⟨[], []⟩) sans).1.length =
        (List.foldl classifyStep ([], ⟨[], []⟩) sans).1.toFinset.card := by
      rw [List.card_toFinset, List.Nodup.dedup g1]
    rw [hc1, hsetr, List.card_toFinset, List.Nodup.dedup h]
  constructor
  · rw [g2, hlen1]
  · rw [g3, hsetr, Finset.union_self, List.card_toFinset, List.Nodup.dedup h, g2, hlen1]

theorem cmp_generated (d : KubeCert) (c : Cert)
    (hcn : c.commonName = d.commonName)
    (horgf : c.organization = (NewCertConfig 0 d.commonName d.organisation d.sans).Organization)
    (hsansf : GetAllSans c = (NewCertConfig 0 d.commonName d.organisation d.sans).AltNames.DNSNames ++
      (NewCertConfig 0 d.commonName d.organisation d.sans).AltNames.IPs)
    (horg : orgOk d.organisation) (hsans : d.sans.Nodup) :
    cmpWithDefinition c d = true := by
  unfold cmpWithDefinition
  rw [hcn, horgf, hsansf]
  simp only [Bool.and_eq_true, beq_self_eq_true]
  exact ⟨⟨trivial, newCertConfig_org_cmp _ _ _ horg⟩,
    newCertConfig_sans_cmp _ _ _ hsans⟩

theorem resolveParent_of_map (done : List ProcCert) (caMap : List (String × Nat))
    (parent : String) (j : Nat) (pc : ProcCert)
    (hmap : caMapGet caMap parent = some j) (hget : done.get? j = some pc) :
    resolveParent done caMap parent = some pc := by
  unfold resolveParent
  rw [hmap]
  exact hget

theorem validateStage_generated_ca (tpls : List KubeCertTemplate)
    (caMap : List (String × Nat)) (done : List ProcCert) (d : KubeCert)
    (key : PrivKey) (hpar : (tpls.getD d.templateIdx default).parent = "")
    (hsans : d.sans = []) (horg : orgOk d.organisation) :
    validateStage tpls caMap done d
      (SelfSignedCaKey (NewCertConfig 0 d.commonName d.organisation d.sans) key).1
      key = some "" := by
  unfold validateStage
  rw [if_pos hpar]
  rw [if_pos (show VerifyCrtSignature _ key = true by
    unfold VerifyCrtSignature checkSignatureSelf SelfSignedCaKey
    simp)]
  rw [if_pos ?hcmp]
  case hcmp =>
    apply cmp_generated d _ rfl rfl _ horg (hsans ▸ List.nodup_nil)
    show ([] : List String) ++ [] =
      (NewCertConfig 0 d.commonName d.organisation d.sans).AltNames.DNSNames ++
        (NewCertConfig 0 d.commonName d.organisation d.sans).AltNames.IPs
    rw [hsans]
    rfl

theorem validateStage_generated_leaf (tpls : List KubeCertTemplate)
    (caMap : List (String × Nat)) (done : List ProcCert) (d : KubeCert)
    (pc : ProcCert) (j : Nat) (key : PrivKey) (serial : Nat)
    (hpar : (tpls.getD d.templateIdx default).parent ≠ "")
    (hmap : caMapGet caMap ((tpls.getD d.templateIdx default).parent) = some j)
    (hget : done.get? j = some pc)
    (hca : pc.cert.isCA = true) (hcs : pc.cert.keyUsageCertSign = true)
    (hpk : pc.cert.pubKey = pc.key)
    (hsans : d.sans.Nodup) (horg : orgOk d.organisation) :
    validateStage tpls caMap done d
      (SelfSignedCertKey (NewCertConfig 0 d.commonName d.organisation d.sans)
        pc.cert pc.key key serial).1 key = some "" := by
  have hres := resolveParent_of_map done caMap
    ((tpls.getD d.templateIdx default).parent) j pc hmap hget
  have hsig : CheckSignatureFrom
      (SelfSignedCertKey (NewCertConfig 0 d.commonName d.organisation d.sans)
        pc.cert pc.key key serial).1 pc.cert = true := by
    unfold CheckSignatureFrom SelfSignedCertKey
    simp [hca, hcs, hpk]
  have hcmp : cmpWithDefinition
      (SelfSignedCertKey (NewCertConfig 0 d.commonName d.organisation d.sans)
        pc.cert pc.key key serial).1 d = true :=
    cmp_generated d _ rfl rfl rfl horg hsans
  unfold validateStage
  rw [if_neg hpar]
  simp only [hres, hsig, hcmp, if_true]

theorem validateStage_append (tpls : List KubeCertTemplate)
    (caMap : List (String × Nat)) (done : List ProcCert) (x : ProcCert)
    (d : KubeCert) (c : Cert) (k : PrivKey) (r : String)
    (h : validateStage tpls caMap done d c k = some r) :
    validateStage tpls caMap (done ++ [x]) d c k = some r := by
  unfold validateStage at h ⊢
  by_cases hp : (tpls.getD d.templateIdx default).parent = ""
  · rw [if_pos hp] at h ⊢
    exact h
  · rw [if_neg hp] at h ⊢
    cases hrp : resolveParent done caMap ((tpls.getD d.templateIdx default).parent) with
    | none => rw [hrp] at h; cases h
    | some pc =>
      rw [hrp] at h
      have hrp2 : resolveParent (done ++ [x]) caMap
          ((tpls.getD d.templateIdx default).parent) = some pc := by
        unfold resolveParent at hrp ⊢
        have hlt := List.get?_eq_some.mp hrp
        rw [List.get?_append hlt.1]
        exact hrp
      rw [hrp2]
      exact h

theorem validateStage_take (tpls : List KubeCertTemplate)
    (caMap : List (String × Nat)) (done : List ProcCert) (i : Nat)
    (d : KubeCert) (c : Cert) (k : PrivKey) (r : String)
    (hpar : (tpls.getD d.templateIdx default).parent ≠ "" →
      ∃ j, caMapGet caMap ((tpls.getD d.templateIdx default).parent) = some j ∧ j < i)
    (h : validateStage tpls caMap done d c k = some r) :
    validateStage tpls caMap (done.take i) d c k = some r := by
  unfold validateStage at h ⊢
  by_cases hp : (tpls.getD d.templateIdx default).parent = ""
  · rw [if_pos hp] at h ⊢
    exact h
  · rw [if_neg hp] at h ⊢
    obtain ⟨j, hmap, hji⟩ := hpar hp
    cases hrp : resolveParent done caMap ((tpls.getD d.templateIdx default).parent) with
    | none => rw [hrp] at h; cases h
    | some pc =>
      rw [hrp] at h
      have hrp2 : resolveParent (done.take i) caMap
          ((tpls.getD d.templateIdx default).parent) = some pc := by
        unfold resolveParent at hrp ⊢
        rw [hmap] at hrp ⊢
        simp only [Option.getD_some] at hrp ⊢
        rw [List.get?_take hji]
        exact hrp
      rw [hrp2]
      exact h

/-- The descriptor's stored pair is readable, parseable and valid — the
state in which the second run keeps it untouched. -/
def EntryOk (tpls : List KubeCertTemplate) (caMap : List (String × Nat))
    (done : List ProcCert) (store : Storage) (e : ProcCert) : Prop :=
  storeGet store (e.desc.readPath, ArtifactKind.crt) = some (Blob.certPEM e.cert) ∧
    storeGet store (e.desc.readPath, ArtifactKind.key) = some (Blob.keyPEM e.key) ∧
    validateStage tpls caMap done e.desc e.cert e.key = some ""

theorem descWfB_elim (tpls : List KubeCertTemplate) (d : KubeCert)
    (h : DescWfB tpls d = true) :
    d.readPath = d.writePath ∧ d.sans.Nodup ∧ orgOk d.organisation ∧
      ((tpls.getD d.templateIdx default).parent = "" → d.sans = []) := by
  unfold DescWfB at h
  simp only [Bool.and_eq_true, beq_iff_eq, decide_eq_true_eq, Bool.or_eq_true,
    bne_iff_ne, ne_eq, List.isEmpty_iff] at h
  obtain ⟨⟨⟨h1, h2⟩, h3⟩, h4⟩ := h
  refine ⟨h1, h2, ?_, ?_⟩
  · unfold orgOk
    rcases h3 with h3 | ⟨h3a, h3b⟩
    · exact Or.inl h3
    · exact Or.inr ⟨h3a, h3b⟩
  · intro hp
    rcases h4 with h4 | h4
    · exact absurd hp h4
    · exact h4

theorem checkFailure_none_elim (tpls : List KubeCertTemplate)
    (caMap : List (String × Nat)) (done : List ProcCert) (store : Storage)
    (d : KubeCert) (h : checkFailure tpls caMap done store d = none) :
    ∃ ck, loadStage store d = ("", some ck) ∧
      validateStage tpls caMap done d ck.1 ck.2 = none := by
  unfold checkFailure at h
  rcases loadStage_shape store d with h1 | h1 | ⟨ck, h1, hc, hk⟩
  · rw [h1] at h
    simp at h
  · rw [h1] at h
    simp at h
  · rw [h1] at h
    simp only [if_pos rfl] at h
    exact ⟨ck, h1, h⟩

theorem validateStage_auth_ne_none (tpls : List KubeCertTemplate)
    (caMap : List (String × Nat)) (done : List ProcCert) (d : KubeCert)
    (c : Cert) (k : PrivKey)
    (hp : (tpls.getD d.templateIdx default).parent = "") :
    validateStage tpls caMap done d c k ≠ none := by
  unfold validateStage
  rw [if_pos hp]
  split
  · split <;> simp
  · simp

theorem validateStage_parent_ne_none (tpls : List KubeCertTemplate)
    (caMap : List (String × Nat)) (done : List ProcCert) (d : KubeCert)
    (c : Cert) (k : PrivKey) (pc : ProcCert)
    (hp : (tpls.getD d.templateIdx default).parent ≠ "")
    (hrp : resolveParent done caMap ((tpls.getD d.templateIdx default).parent) = some pc) :
    validateStage tpls caMap done d c k ≠ none := by
  unfold validateStage
  rw [if_neg hp]
  simp only [hrp]
  split
  · split <;> simp
  · simp

theorem validateStage_none_elim (tpls : List KubeCertTemplate)
    (caMap : List (String × Nat)) (done : List ProcCert) (d : KubeCert)
    (c : Cert) (k : PrivKey)
    (h : validateStage tpls caMap done d c k = none) :
    (tpls.getD d.templateIdx default).parent ≠ "" ∧
      resolveParent done caMap ((tpls.getD d.templateIdx default).parent) = none := by
  by_cases hp : (tpls.getD d.templateIdx default).parent = ""
  · exact absurd h (validateStage_auth_ne_none tpls caMap done d c k hp)
  · refine ⟨hp, ?_⟩
    cases hrp : resolveParent done caMap ((tpls.getD d.templateIdx default).parent) with
    | none => rfl
    | some pc =>
      exact absurd h (validateStage_parent_ne_none tpls caMap done d c k pc hp hrp)

theorem certStep_kept (tpls : List KubeCertTemplate) (caMap : List (String × Nat))
    (rnd : Nat → Nat) (st : EngineSt) (d : KubeCert) (c : Cert) (k : PrivKey)
    (herr : st.err = none)
    (hload : loadStage st.store d = ("", some (c, k)))
    (hval : validateStage tpls caMap st.done d c k = some "") :
    certStep false true tpls caMap rnd st d =
      { st with done := st.done ++ [⟨d, c, k⟩] } := by
  have hcf : checkFailure tpls caMap st.done st.store d = some "" :=
    checkFailure_of _ _ _ _ _ _ _ hload hval
  have hld2 : (loadStage st.store d).2 = some (c, k) := by rw [hload]
  unfold certStep
  rw [herr]
  simp only [Option.isSome_none, Bool.false_eq_true, if_false, hcf]
  rw [if_neg (by decide)]
  split
  · rw [hld2]
  · next hne => exact absurd trivial hne

/-- Crt/key path keys with different suffixes never collide. -/
theorem pathKey_crt_ne_key (p q : String) :
    ((p, ArtifactKind.crt) : PathKey) ≠ (q, ArtifactKind.key) := by
  intro h
  cases h

/-- The postcondition of one overwrite-enabled, non-forced step: no abort,
exactly one descriptor appended, and the storage now holds a pair for it
that loads and validates (against the pre-step `done` prefix); an authority
gets a CA-capable matching pair; other paths are untouched. -/
theorem certStep_post (tpls : List KubeCertTemplate) (caMap : List (String × Nat))
    (rnd : Nat → Nat) (st : EngineSt) (d : KubeCert)
    (herr : st.err = none)
    (hwf : DescWfB tpls d = true)
    (hparent : (tpls.getD d.templateIdx default).parent ≠ "" →
      ∃ j pc, caMapGet caMap ((tpls.getD d.templateIdx default).parent) = some j ∧
        st.done.get? j = some pc ∧ pc.cert.isCA = true ∧
        pc.cert.keyUsageCertSign = true ∧ pc.cert.pubKey = pc.key)
    (hauthc : (tpls.getD d.templateIdx default).parent = "" →
      ∀ c, storeGet st.store (d.readPath, ArtifactKind.crt) = some (Blob.certPEM c) →
        c.isCA = true ∧ c.keyUsageCertSign = true)
    (hauthk : (tpls.getD d.templateIdx default).parent = "" →
      ∀ c k, storeGet st.store (d.readPath, ArtifactKind.crt) = some (Blob.certPEM c) →
        storeGet st.store (d.readPath, ArtifactKind.key) = some (Blob.keyPEM k) →
        c.pubKey = k) :
    (certStep false true tpls caMap rnd st d).err = none ∧
      ∃ c k, (certStep false true tpls caMap rnd st d).done = st.done ++ [⟨d, c, k⟩] ∧
        storeGet (certStep false true tpls caMap rnd st d).store
          (d.readPath, ArtifactKind.crt) = some (Blob.certPEM c) ∧
        storeGet (certStep false true tpls caMap rnd st d).store
          (d.readPath, ArtifactKind.key) = some (Blob.keyPEM k) ∧
        validateStage tpls caMap st.done d c k = some "" ∧
        ((tpls.getD d.templateIdx default).parent = "" →
          c.isCA = true ∧ c.keyUsageCertSign = true ∧ c.pubKey = k) ∧
        (∀ p : PathKey, p.1 ≠ d.writePath →
          storeGet (certStep false true tpls caMap rnd st d).store p =
            storeGet st.store p) := by
  obtain ⟨hrw, hsans, horg, hca_sans⟩ := descWfB_elim tpls d hwf
  cases hcf : checkFailure tpls caMap st.done st.store d with
  | none =>
    exfalso
    obtain ⟨ck, hload, hvnone⟩ := checkFailure_none_elim tpls caMap st.done st.store d hcf
    obtain ⟨hp, hrp⟩ := validateStage_none_elim tpls caMap st.done d ck.1 ck.2 hvnone
    obtain ⟨j, pc, hmap, hget, _⟩ := hparent hp
    rw [resolveParent_of_map st.done caMap _ j pc hmap hget] at hrp
    cases hrp
  | some failed =>
    by_cases hfe : failed = ""
    · subst hfe
      obtain ⟨ck, hload, hval⟩ := checkFailure_ok_elim tpls caMap st.done st.store d hcf
      have hstep := certStep_kept tpls caMap rnd st d ck.1 ck.2 herr
        (by rw [hload]) hval
      rw [hstep]
      obtain ⟨hld1, hgc, hgk⟩ := loadStage_ok_elim st.store d ck (by rw [hload])
      refine ⟨herr, ck.1, ck.2, rfl, hgc, hgk, hval, ?_, ?_⟩
      · intro hp
        obtain ⟨hc1, hc2⟩ := hauthc hp ck.1 hgc
        exact ⟨hc1, hc2, hauthk hp ck.1 ck.2 hgc hgk⟩
      · intro p hnp
        rfl
    · have hregen : certStep false true tpls caMap rnd st d =
          match genCrt tpls caMap st.done d rnd st.ctr with
          | none => { st with err := some "nil pointer dereference" }
          | some (c, k, ctr') =>
            { done := st.done ++ [⟨d, c, k⟩],
              store := storeWrite (storeWrite st.store (d.writePath, ArtifactKind.crt)
                (Blob.certPEM c)) (d.writePath, ArtifactKind.key) (Blob.keyPEM k),
              changed := true,
              writes := st.writes ++ [(d.writePath, ArtifactKind.crt),
                (d.writePath, ArtifactKind.key)],
              ctr := ctr', err := none } := by
        unfold certStep
        rw [herr]
        simp only [Option.isSome_none, Bool.false_eq_true, if_false, hcf]
        rw [if_pos (by simp [hfe])]
      by_cases hp : (tpls.getD d.templateIdx default).parent = ""
      · have hgen : genCrt tpls caMap st.done d rnd st.ctr =
            some ((SelfSignedCaKey (NewCertConfig 0 d.commonName d.organisation d.sans)
                (rnd st.ctr)).1,
              (SelfSignedCaKey (NewCertConfig 0 d.commonName d.organisation d.sans)
                (rnd st.ctr)).2, st.ctr + 1) := by
          unfold genCrt
          rw [if_pos hp]
        rw [hregen, hgen]
        refine ⟨rfl, _, rnd st.ctr, rfl, ?_, ?_, ?_, ?_, ?_⟩
        · rw [hrw, storeGet_write_other _ _ _ _ (pathKey_crt_ne_key _ _),
            storeGet_write_self]
        · rw [hrw, storeGet_write_self]
          rfl
        · exact validateStage_generated_ca tpls caMap st.done d (rnd st.ctr) hp
            (hca_sans hp) horg
        · intro _
          exact ⟨rfl, rfl, rfl⟩
        · intro p hnp
          rw [storeGet_write_other _ _ _ _ (fun he => hnp (congrArg Prod.fst he)),
            storeGet_write_other _ _ _ _ (fun he => hnp (congrArg Prod.fst he))]
      · obtain ⟨j, pc, hmap, hget, hq1, hq2, hq3⟩ := hparent hp
        have hres := resolveParent_of_map st.done caMap
          ((tpls.getD d.templateIdx default).parent) j pc hmap hget
        have hgen : genCrt tpls caMap st.done d rnd st.ctr =
            some ((SelfSignedCertKey (NewCertConfig 0 d.commonName d.organisation d.sans)
                pc.cert pc.key (rnd st.ctr) (rnd (st.ctr + 1))).1,
              (SelfSignedCertKey (NewCertConfig 0 d.commonName d.organisation d.sans)
                pc.cert pc.key (rnd st.ctr) (rnd (st.ctr + 1))).2, st.ctr + 2) := by
          unfold genCrt
          rw [if_neg hp]
          simp only [hres]
        rw [hregen, hgen]
        refine ⟨rfl, _, rnd st.ctr, rfl, ?_, ?_, ?_, ?_, ?_⟩
        · rw [hrw, storeGet_write_other _ _ _ _ (pathKey_crt_ne_key _ _),
            storeGet_write_self]
        · rw [hrw, storeGet_write_self]
          rfl
        · exact validateStage_generated_leaf tpls caMap st.done d pc j (rnd st.ctr)
            (rnd (st.ctr + 1)) hp hmap hget hq1 hq2 hq3 hsans horg
        · intro hp2
          exact absurd hp2 hp
        · intro p hnp
          rw [storeGet_write_other _ _ _ _ (fun he => hnp (congrArg Prod.fst he)),
            storeGet_write_other _ _ _ _ (fun he => hnp (congrArg Prod.fst he))]

theorem list_getD_eq_getElem {α : Type} [Inhabited α] (l : List α) (i : Nat)
    (h : i < l.length) : l.getD i default = l[i] := by
  unfold List.getD
  rw [List.get?_eq_getElem?, List.getElem?_eq_getElem h]
  rfl

theorem nodup_paths_ne (descs : List KubeCert)
    (hnodup : (descs.map (fun d => d.readPath)).Nodup)
    (i j : Nat) (hi : i < descs.length) (hj : j < descs.length) (hij : i ≠ j) :
    descs[i].readPath ≠ descs[j].readPath := by
  intro he
  have hi2 : i < (descs.map (fun d => d.readPath)).length := by simpa using hi
  have hj2 : j < (descs.map (fun d => d.readPath)).length := by simpa using hj
  have h1 : (descs.map (fun d => d.readPath))[i] =
      (descs.map (fun d => d.readPath))[j] := by
    rw [List.getElem_map, List.getElem_map]
    exact he
  exact hij ((List.Nodup.getElem_inj_iff hnodup).mp h1)

theorem authStoreOkB_elim (tpls : List KubeCertTemplate) (descs : List KubeCert)
    (store : Storage) (d : KubeCert) (h : authStoreOkB tpls descs store = true)
    (hd : d ∈ descs) (hp : (tpls.getD d.templateIdx default).parent = "") :
    (∀ c, storeGet store (d.readPath, ArtifactKind.crt) = some (Blob.certPEM c) →
      c.isCA = true ∧ c.keyUsageCertSign = true) ∧
    (∀ c k, storeGet store (d.readPath, ArtifactKind.crt) = some (Blob.certPEM c) →
      storeGet store (d.readPath, ArtifactKind.key) = some (Blob.keyPEM k) →
      c.pubKey = k) := by
  unfold authStoreOkB at h
  rw [List.all_eq_true] at h
  have hb := h d hd
  rw [if_pos hp] at hb
  constructor
  · intro c hc
    rw [hc] at hb
    simp only [Bool.and_eq_true] at hb
    exact ⟨hb.1.1, hb.1.2⟩
  · intro c k hc hk
    rw [hc, hk] at hb
    simp only [Bool.and_eq_true, beq_iff_eq] at hb
    exact hb.2

/-- The parentOkB fact, unpacked at an index. -/
theorem parentOkB_elim (tpls : List KubeCertTemplate) (caMap : List (String × Nat))
    (descs : List KubeCert) (i : Nat) (h : parentOkB tpls caMap descs i = true)
    (hp : (tpls.getD (descs.getD i default).templateIdx default).parent ≠ "") :
    ∃ j, caMapGet caMap ((tpls.getD (descs.getD i default).templateIdx default).parent) =
        some j ∧ j < i ∧
      (tpls.getD ((descs.getD j default).templateIdx) default).parent = "" := by
  unfold parentOkB at h
  rw [if_neg hp] at h
  cases hm : caMapGet caMap
      ((tpls.getD (descs.getD i default).templateIdx default).parent) with
  | none => rw [hm] at h; cases h
  | some j =>
    rw [hm] at h
    simp only [Bool.and_eq_true, decide_eq_true_eq, beq_iff_eq] at h
    exact ⟨j, rfl, h.1, h.2⟩

/-- The run-1 induction invariant after `k` descriptors have been
processed: no abort, the processed entries are exactly the first `k`
descriptors, every processed artifact pair is stored and validates, stored
authority pairs are CA-capable and matching, and every path not owned by a
processed descriptor carries its original content. -/
def Run1Inv (tpls : List KubeCertTemplate) (caMap : List (String × Nat))
    (store0 : Storage) (descs : List KubeCert) (k : Nat) (st : EngineSt) : Prop :=
  st.err = none ∧
    st.done.map (fun e => e.desc) = descs.take k ∧
    (∀ e ∈ st.done, EntryOk tpls caMap st.done st.store e) ∧
    (∀ e ∈ st.done, (tpls.getD e.desc.templateIdx default).parent = "" →
      e.cert.isCA = true ∧ e.cert.keyUsageCertSign = true ∧ e.cert.pubKey = e.key) ∧
    (∀ p : PathKey, (∀ d ∈ descs.take k, p.1 ≠ d.readPath) →
      storeGet st.store p = storeGet store0 p)

theorem mem_take_getElem {α : Type} (l : List α) (k : Nat) (x : α)
    (h : x ∈ l.take k) :
    ∃ i, ∃ hi : i < l.length, i < k ∧ x = l[i] := by
  obtain ⟨i, hi, hx⟩ := List.mem_iff_getElem.mp h
  have hik : i < k :=
    Nat.lt_of_lt_of_le hi (by rw [List.length_take]; exact Nat.min_le_left _ _)
  have hil : i < l.length :=
    Nat.lt_of_lt_of_le hi (by rw [List.length_take]; exact Nat.min_le_right _ _)
  refine ⟨i, hil, hik, ?_⟩
  rw [← hx]
  exact List.getElem_take l

/-- One-run soundness of the certificate engine: folding the
overwrite-enabled, non-forced step over the unprocessed suffix carries the
invariant to the end of the descriptor list. -/
theorem run1_aux (tpls : List KubeCertTemplate) (caMap : List (String × Nat))
    (rnd : Nat → Nat) (store0 : Storage) (descs : List KubeCert)
    (hwf : DescsWfB tpls caMap descs = true)
    (hauth : authStoreOkB tpls descs store0 = true) :
    ∀ (rest : List KubeCert) (k : Nat) (st : EngineSt),
      descs.drop k = rest →
      Run1Inv tpls caMap store0 descs k st →
      Run1Inv tpls caMap store0 descs descs.length
        (rest.foldl (certStep false true tpls caMap rnd) st) := by
  have hwf3 := hwf
  unfold DescsWfB at hwf3
  simp only [Bool.and_eq_true, List.all_eq_true, decide_eq_true_eq] at hwf3
  obtain ⟨⟨hall, hnodup⟩, hpar⟩ := hwf3
  intro rest
  induction rest with
  | nil =>
    intro k st hdrop hinv
    rw [List.foldl_nil]
    have hk : descs.length ≤ k := List.drop_eq_nil_iff.mp hdrop
    obtain ⟨h1, h2, h3, h4, h5⟩ := hinv
    refine ⟨h1, ?_, h3, h4, ?_⟩
    · rw [List.take_of_length_le hk] at h2
      rw [List.take_length]
      exact h2
    · intro p hp
      rw [List.take_length descs] at hp
      apply h5
      rw [List.take_of_length_le hk]
      exact hp
  | cons d rest ih =>
    intro k st hdrop hinv
    have hklt : k < descs.length := by
      by_contra hge
      rw [List.drop_eq_nil_iff.mpr (Nat.le_of_not_lt hge)] at hdrop
      simp at hdrop
    have hdc : descs.drop k = descs[k] :: descs.drop (k + 1) :=
      List.drop_eq_getElem_cons hklt
    rw [hdrop] at hdc
    injection hdc with hd hrest
    obtain ⟨herr, hdone, hok, hq, hframe⟩ := hinv
    have hlen : st.done.length = k := by
      have hl := congrArg List.length hdone
      rw [List.length_map, List.length_take] at hl
      rw [hl]
      exact Nat.min_eq_left (Nat.le_of_lt hklt)
    have hdmem : d ∈ descs := by
      rw [hd]
      exact List.getElem_mem hklt
    have hwfd : DescWfB tpls d = true := hall d hdmem
    obtain ⟨hrwd, _, _, _⟩ := descWfB_elim tpls d hwfd
    have hparent : (tpls.getD d.templateIdx default).parent ≠ "" →
        ∃ j pc, caMapGet caMap ((tpls.getD d.templateIdx default).parent) = some j ∧
          st.done.get? j = some pc ∧ pc.cert.isCA = true ∧
          pc.cert.keyUsageCertSign = true ∧ pc.cert.pubKey = pc.key := by
      intro hp
      have hpk : parentOkB tpls caMap descs k = true :=
        hpar k (List.mem_range.mpr hklt)
      have hgd : descs.getD k default = d := by
        rw [list_getD_eq_getElem descs k hklt, hd]
      obtain ⟨j, hmap, hjk, hpj⟩ :=
        parentOkB_elim tpls caMap descs k hpk (by rw [hgd]; exact hp)
      rw [hgd] at hmap
      have hjlen : j < st.done.length := by rw [hlen]; exact hjk
      have hjdl : j < descs.length := Nat.lt_trans hjk hklt
      have hpdesc : (st.done[j]).desc = descs[j] := by
        have h1 : (st.done.map (fun e => e.desc))[j]? = (descs.take k)[j]? := by
          rw [hdone]
        rw [List.getElem?_map, List.getElem?_eq_getElem hjlen,
          List.getElem?_take_of_lt hjk, List.getElem?_eq_getElem hjdl] at h1
        simpa using h1
      have hpj2 : (tpls.getD ((st.done[j]).desc.templateIdx) default).parent = "" := by
        rw [hpdesc, ← list_getD_eq_getElem descs j hjdl]
        exact hpj
      obtain ⟨hq1, hq2, hq3⟩ :=
        hq (st.done[j]) (List.getElem_mem hjlen) hpj2
      refine ⟨j, st.done[j], hmap, ?_, hq1, hq2, hq3⟩
      rw [List.get?_eq_getElem?, List.getElem?_eq_getElem hjlen]
    have hfr : ∀ kind, storeGet st.store (d.readPath, kind) =
        storeGet store0 (d.readPath, kind) := by
      intro kind
      apply hframe
      intro d2 hd2
      obtain ⟨i, hil, hik, hdi⟩ := mem_take_getElem descs k d2 hd2
      show d.readPath ≠ d2.readPath
      rw [hd, hdi]
      exact nodup_paths_ne descs hnodup k i hklt hil (Ne.symm (Nat.ne_of_lt hik))
    have hauthc : (tpls.getD d.templateIdx default).parent = "" →
        ∀ c, storeGet st.store (d.readPath, ArtifactKind.crt) = some (Blob.certPEM c) →
          c.isCA = true ∧ c.keyUsageCertSign = true := by
      intro hp c hc
      rw [hfr ArtifactKind.crt] at hc
      exact (authStoreOkB_elim tpls descs store0 d hauth hdmem hp).1 c hc
    have hauthk : (tpls.getD d.templateIdx default).parent = "" →
        ∀ c kk, storeGet st.store (d.readPath, ArtifactKind.crt) = some (Blob.certPEM c) →
          storeGet st.store (d.readPath, ArtifactKind.key) = some (Blob.keyPEM kk) →
          c.pubKey = kk := by
      intro hp c kk hc hk2
      rw [hfr ArtifactKind.crt] at hc
      rw [hfr ArtifactKind.key] at hk2
      exact (authStoreOkB_elim tpls descs store0 d hauth hdmem hp).2 c kk hc hk2
    obtain ⟨herr2, c, kk, hdone2, hsc, hsk, hval, hqual, hfr2⟩ :=
      certStep_post tpls caMap rnd st d herr hwfd hparent hauthc hauthk
    have htake : descs.take (k + 1) = descs.take k ++ [d] := by
      rw [List.take_succ, List.getElem?_eq_getElem hklt, ← hd]
      rfl
    rw [List.foldl_cons]
    apply ih (k + 1) (certStep false true tpls caMap rnd st d) hrest.symm
    refine ⟨herr2, ?_, ?_, ?_, ?_⟩
    · rw [hdone2, List.map_append, hdone, htake]
      rfl
    · intro e he
      rw [hdone2] at he
      rcases List.mem_append.mp he with hee | hee
      · obtain ⟨hc1, hk1, hv1⟩ := hok e hee
        have hmtk : e.desc ∈ descs.take k := by
          rw [← hdone]
          exact List.mem_map_of_mem _ hee
        have hneP : e.desc.readPath ≠ d.writePath := by
          rw [← hrwd]
          obtain ⟨i, hil, hik, hdi⟩ := mem_take_getElem descs k e.desc hmtk
          rw [hdi, hd]
          exact nodup_paths_ne descs hnodup i k hil hklt (Nat.ne_of_lt hik)
        refine ⟨?_, ?_, ?_⟩
        · rw [hfr2 (e.desc.readPath, ArtifactKind.crt) hneP]
          exact hc1
        · rw [hfr2 (e.desc.readPath, ArtifactKind.key) hneP]
          exact hk1
        · rw [hdone2]
          exact validateStage_append tpls caMap st.done _ e.desc e.cert e.key "" hv1
      · have hee2 : e = ⟨d, c, kk⟩ := List.mem_singleton.mp hee
        subst hee2
        refine ⟨hsc, hsk, ?_⟩
        rw [hdone2]
        exact validateStage_append tpls caMap st.done _ d c kk "" hval
    · intro e he hp
      rw [hdone2] at he
      rcases List.mem_append.mp he with hee | hee
      · exact hq e hee hp
      · have hee2 : e = ⟨d, c, kk⟩ := List.mem_singleton.mp hee
        subst hee2
        exact hqual hp
    · intro p hp
      have hpd : p.1 ≠ d.writePath := by
        rw [← hrwd]
        apply hp
        rw [htake]
        exact List.mem_append_right _ (List.mem_singleton.mpr rfl)
      rw [hfr2 p hpd]
      apply hframe
      intro d2 hd2
      apply hp
      rw [htake]
      exact List.mem_append_left _ hd2

/-- A first certificate run from any conforming start establishes the full
invariant. -/
theorem runCerts_post (tpls : List KubeCertTemplate) (caMap : List (String × Nat))
    (rnd : Nat → Nat) (descs : List KubeCert) (store0 : Storage)
    (hwf : DescsWfB tpls caMap descs = true)
    (hauth : authStoreOkB tpls descs store0 = true) :
    Run1Inv tpls caMap store0 descs descs.length
      (runCerts false true tpls caMap rnd descs store0) := by
  have h0 : Run1Inv tpls caMap store0 descs 0 ⟨[], store0, false, [], 0, none⟩ := by
    refine ⟨rfl, rfl, ?_, ?_, ?_⟩
    · intro e he; cases he
    · intro e he; cases he
    · intro p hp; rfl
  unfold runCerts
  exact run1_aux tpls caMap rnd store0 descs hwf hauth descs 0 _ rfl h0

/-- Second certificate run: starting from a storage in which every
descriptor's pair is stored and valid, the loop keeps every descriptor —
no write, no change, no abort, and the storage is returned untouched. -/
theorem run2_aux (tpls : List KubeCertTemplate) (caMap : List (String × Nat))
    (rnd : Nat → Nat) (descs : List KubeCert) (done1 : List ProcCert) (S1 : Storage)
    (hwf : DescsWfB tpls caMap descs = true)
    (hmap1 : done1.map (fun e => e.desc) = descs)
    (hok1 : ∀ e ∈ done1, EntryOk tpls caMap done1 S1 e) :
    ∀ (rest : List KubeCert) (k : Nat),
      descs.drop k = rest →
      rest.foldl (certStep false true tpls caMap rnd)
        ⟨done1.take k, S1, false, [], 0, none⟩ =
        ⟨done1, S1, false, [], 0, none⟩ := by
  have hlen1 : done1.length = descs.length := by
    have hl := congrArg List.length hmap1
    rwa [List.length_map] at hl
  have hwf3 := hwf
  unfold DescsWfB at hwf3
  simp only [Bool.and_eq_true, List.all_eq_true, decide_eq_true_eq] at hwf3
  obtain ⟨⟨hall, hnodup⟩, hpar⟩ := hwf3
  intro rest
  induction rest with
  | nil =>
    intro k hdrop
    rw [List.foldl_nil]
    have hk : descs.length ≤ k := List.drop_eq_nil_iff.mp hdrop
    rw [List.take_of_length_le (by rw [hlen1]; exact hk)]
  | cons d rest ih =>
    intro k hdrop
    have hklt : k < descs.length := by
      by_contra hge
      rw [List.drop_eq_nil_iff.mpr (Nat.le_of_not_lt hge)] at hdrop
      simp at hdrop
    have hdc : descs.drop k = descs[k] :: descs.drop (k + 1) :=
      List.drop_eq_getElem_cons hklt
    rw [hdrop] at hdc
    injection hdc with hd hrest
    have hk1 : k < done1.length := by rw [hlen1]; exact hklt
    have hpdesc : (done1[k]).desc = d := by
      have h1 : (done1.map (fun e => e.desc))[k]? = descs[k]? := by rw [hmap1]
      rw [List.getElem?_map, List.getElem?_eq_getElem hk1,
        List.getElem?_eq_getElem hklt] at h1
      rw [hd]
      simpa using h1
    obtain ⟨hc1, hk2, hv1⟩ := hok1 (done1[k]) (List.getElem_mem hk1)
    have hvk : validateStage tpls caMap (done1.take k) (done1[k]).desc
        (done1[k]).cert (done1[k]).key = some "" := by
      refine validateStage_take tpls caMap done1 k _ _ _ _ ?_ hv1
      intro hp
      have hpk : parentOkB tpls caMap descs k = true :=
        hpar k (List.mem_range.mpr hklt)
      have hgd : descs.getD k default = (done1[k]).desc := by
        rw [list_getD_eq_getElem descs k hklt, hpdesc, hd]
      obtain ⟨j, hmapj, hjk, hpj⟩ :=
        parentOkB_elim tpls caMap descs k hpk (by rw [hgd]; exact hp)
      rw [hgd] at hmapj
      exact ⟨j, hmapj, hjk⟩
    have hload : loadStage S1 (done1[k]).desc =
        ("", some ((done1[k]).cert, (done1[k]).key)) :=
      loadStage_of_gets S1 _ _ _ hc1 hk2
    have hstep := certStep_kept tpls caMap rnd
      ⟨done1.take k, S1, false, [], 0, none⟩ (done1[k]).desc (done1[k]).cert
      (done1[k]).key rfl hload hvk
    have htk : done1.take k ++
        [(⟨(done1[k]).desc, (done1[k]).cert, (done1[k]).key⟩ : ProcCert)] =
        done1.take (k + 1) := by
      rw [List.take_succ, List.getElem?_eq_getElem hk1]
      rfl
    rw [List.foldl_cons, ← hpdesc, hstep]
    show rest.foldl (certStep false true tpls caMap rnd)
        ⟨done1.take k ++ [⟨(done1[k]).desc, (done1[k]).cert, (done1[k]).key⟩],
          S1, false, [], 0, none⟩ = ⟨done1, S1, false, [], 0, none⟩
    rw [htk]
    exact ih (k + 1) hrest.symm

/-- Pub/key path keys with different suffixes never collide. -/
theorem pathKey_pub_ne_key (p q : String) :
    ((p, ArtifactKind.pub) : PathKey) ≠ (q, ArtifactKind.key) := by
  intro h
  cases h

/-- One key-engine step with overwrite on and force-regen off either keeps
a stored matching pair untouched or regenerates and writes a fresh pair. -/
theorem keyStep_shape (rnd : Nat → Nat) (st : KeySt) (tpl : KubeKeyTemplate)
    (herr : st.err = none) :
    (keyStep false true rnd st tpl = st ∧
      ∃ kk, storeGet st.store (GlobalPath ++ tpl.path, ArtifactKind.key) =
          some (Blob.keyPEM kk) ∧
        storeGet st.store (GlobalPath ++ tpl.path, ArtifactKind.pub) =
          some (Blob.pubPEM kk)) ∨
    keyStep false true rnd st tpl =
      { store := storeWrite (storeWrite st.store
            (GlobalPath ++ tpl.path, ArtifactKind.pub) (Blob.pubPEM (rnd st.ctr)))
          (GlobalPath ++ tpl.path, ArtifactKind.key) (Blob.keyPEM (rnd st.ctr)),
        changed := true,
        writes := st.writes ++ [(GlobalPath ++ tpl.path, ArtifactKind.pub),
          (GlobalPath ++ tpl.path, ArtifactKind.key)],
        ctr := st.ctr + 1, err := none } := by
  cases hkk : storeGet st.store (GlobalPath ++ tpl.path, ArtifactKind.key) with
  | none =>
    right
    unfold keyStep
    rw [herr]
    simp +decide [hkk]
  | some privB =>
    cases hpb : storeGet st.store (GlobalPath ++ tpl.path, ArtifactKind.pub) with
    | none =>
      right
      unfold keyStep
      rw [herr]
      simp +decide [hkk, hpb]
    | some pubB =>
      cases privB with
      | keyPEM kk =>
        by_cases hm : pubB = Blob.pubPEM kk
        · left
          subst hm
          refine ⟨?_, kk, rfl, rfl⟩
          unfold keyStep
          rw [herr]
          simp +decide [hkk, hpb]
        · right
          unfold keyStep
          rw [herr]
          simp +decide [hkk, hpb, hm]
      | certPEM c =>
        right
        unfold keyStep
        rw [herr]
        simp +decide [hkk, hpb]
      | pubPEM x =>
        right
        unfold keyStep
        rw [herr]
        simp +decide [hkk, hpb]
      | raw s =>
        right
        unfold keyStep
        rw [herr]
        simp +decide [hkk, hpb]

/-- A stored matching key pair is kept untouched by the key engine. -/
theorem keyStep_kept (rnd : Nat → Nat) (st : KeySt) (tpl : KubeKeyTemplate)
    (kk : PrivKey) (herr : st.err = none)
    (hk : storeGet st.store (GlobalPath ++ tpl.path, ArtifactKind.key) =
      some (Blob.keyPEM kk))
    (hp : storeGet st.store (GlobalPath ++ tpl.path, ArtifactKind.pub) =
      some (Blob.pubPEM kk)) :
    keyStep false true rnd st tpl = st := by
  unfold keyStep
  rw [herr]
  simp +decide [hk, hp]

theorem nodup_kpaths_ne (ktpls : List KubeKeyTemplate)
    (hnodup : (ktpls.map (fun t => GlobalPath ++ t.path)).Nodup)
    (i j : Nat) (hi : i < ktpls.length) (hj : j < ktpls.length) (hij : i ≠ j) :
    GlobalPath ++ (ktpls[i]).path ≠ GlobalPath ++ (ktpls[j]).path := by
  intro he
  have hi2 : i < (ktpls.map (fun t => GlobalPath ++ t.path)).length := by
    simpa using hi
  have hj2 : j < (ktpls.map (fun t => GlobalPath ++ t.path)).length := by
    simpa using hj
  have h1 : (ktpls.map (fun t => GlobalPath ++ t.path))[i] =
      (ktpls.map (fun t => GlobalPath ++ t.path))[j] := by
    rw [List.getElem_map, List.getElem_map]
    exact he
  exact hij ((List.Nodup.getElem_inj_iff hnodup).mp h1)

/-- The key-run invariant after `k` templates: no abort, each processed
template's pair is stored and matching, untouched paths keep their
original content. -/
def KeyRunInv (sK0 : Storage) (ktpls : List KubeKeyTemplate) (k : Nat)
    (st : KeySt) : Prop :=
  st.err = none ∧
    (∀ t ∈ ktpls.take k, ∃ kk,
      storeGet st.store (GlobalPath ++ t.path, ArtifactKind.key) =
        some (Blob.keyPEM kk) ∧
      storeGet st.store (GlobalPath ++ t.path, ArtifactKind.pub) =
        some (Blob.pubPEM kk)) ∧
    (∀ p : PathKey, (∀ t ∈ ktpls.take k, p.1 ≠ GlobalPath ++ t.path) →
      storeGet st.store p = storeGet sK0 p)

/-- One-run soundness of the key engine. -/
theorem keyRun1_aux (rnd : Nat → Nat) (sK0 : Storage)
    (ktpls : List KubeKeyTemplate)
    (hnodup : (ktpls.map (fun t => GlobalPath ++ t.path)).Nodup) :
    ∀ (rest : List KubeKeyTemplate) (k : Nat) (st : KeySt),
      ktpls.drop k = rest →
      KeyRunInv sK0 ktpls k st →
      KeyRunInv sK0 ktpls ktpls.length
        (rest.foldl (keyStep false true rnd) st) := by
  intro rest
  induction rest with
  | nil =>
    intro k st hdrop hinv
    rw [List.foldl_nil]
    have hk : ktpls.length ≤ k := List.drop_eq_nil_iff.mp hdrop
    obtain ⟨h1, h2, h3⟩ := hinv
    refine ⟨h1, ?_, ?_⟩
    · rw [List.take_length]
      rw [List.take_of_length_le hk] at h2
      exact h2
    · intro p hp
      rw [List.take_length ktpls] at hp
      apply h3
      rw [List.take_of_length_le hk]
      exact hp
  | cons t rest ih =>
    intro k st hdrop hinv
    have hklt : k < ktpls.length := by
      by_contra hge
      rw [List.drop_eq_nil_iff.mpr (Nat.le_of_not_lt hge)] at hdrop
      simp at hdrop
    have hdc : ktpls.drop k = ktpls[k] :: ktpls.drop (k + 1) :=
      List.drop_eq_getElem_cons hklt
    rw [hdrop] at hdc
    injection hdc with ht hrest
    obtain ⟨herr, hpairs, hframe⟩ := hinv
    have htake : ktpls.take (k + 1) = ktpls.take k ++ [t] := by
      rw [List.take_succ, List.getElem?_eq_getElem hklt, ← ht]
      rfl
    have hother : ∀ t2 ∈ ktpls.take k, GlobalPath ++ t2.path ≠ GlobalPath ++ t.path := by
      intro t2 ht2
      obtain ⟨i, hil, hik, hti⟩ := mem_take_getElem ktpls k t2 ht2
      rw [hti, ht]
      exact nodup_kpaths_ne ktpls hnodup i k hil hklt (Nat.ne_of_lt hik)
    rw [List.foldl_cons]
    apply ih (k + 1) (keyStep false true rnd st t) hrest.symm
    rcases keyStep_shape rnd st t herr with ⟨hkeep, kk, hk1, hp1⟩ | hregen
    · rw [hkeep]
      refine ⟨herr, ?_, ?_⟩
      · intro t2 ht2
        rw [htake] at ht2
        rcases List.mem_append.mp ht2 with h2 | h2
        · exact hpairs t2 h2
        · rw [List.mem_singleton.mp h2]
          exact ⟨kk, hk1, hp1⟩
      · intro p hp
        apply hframe
        intro t2 ht2
        apply hp
        rw [htake]
        exact List.mem_append_left _ ht2
    · rw [hregen]
      refine ⟨rfl, ?_, ?_⟩
      · intro t2 ht2
        rw [htake] at ht2
        rcases List.mem_append.mp ht2 with h2 | h2
        · obtain ⟨kk, hk1, hp1⟩ := hpairs t2 h2
          have hne := hother t2 h2
          refine ⟨kk, ?_, ?_⟩
          · show storeGet (storeWrite _ _ _) _ = _
            rw [storeGet_write_other _ _ _ _ (fun he => hne (congrArg Prod.fst he)),
              storeGet_write_other _ _ _ _ (fun he => hne (congrArg Prod.fst he))]
            exact hk1
          · show storeGet (storeWrite _ _ _) _ = _
            rw [storeGet_write_other _ _ _ _ (fun he => hne (congrArg Prod.fst he)),
              storeGet_write_other _ _ _ _ (fun he => hne (congrArg Prod.fst he))]
            exact hp1
        · rw [List.mem_singleton.mp h2]
          refine ⟨rnd st.ctr, ?_, ?_⟩
          · show storeGet (storeWrite _ _ _) _ = _
            rw [storeGet_write_self]
          · show storeGet (storeWrite _ _ _) _ = _
            rw [storeGet_write_other _ _ _ _ (pathKey_pub_ne_key _ _),
              storeGet_write_self]
      · intro p hp
        have hpt : p.1 ≠ GlobalPath ++ t.path := by
          apply hp
          rw [htake]
          exact List.mem_append_right _ (List.mem_singleton.mpr rfl)
        show storeGet (storeWrite _ _ _) _ = _
        rw [storeGet_write_other _ _ _ _ (fun he => hpt (congrArg Prod.fst he)),
          storeGet_write_other _ _ _ _ (fun he => hpt (congrArg Prod.fst he))]
        apply hframe
        intro t2 ht2
        apply hp
        rw [htake]
        exact List.mem_append_left _ ht2

/-- Second key run: with every pair already stored and matching, the loop
is the identity on the engine state. -/
theorem keyRun2_aux (rnd : Nat → Nat) :
    ∀ (l : List KubeKeyTemplate) (st : KeySt),
      st.err = none →
      (∀ t ∈ l, ∃ kk,
        storeGet st.store (GlobalPath ++ t.path, ArtifactKind.key) =
          some (Blob.keyPEM kk) ∧
        storeGet st.store (GlobalPath ++ t.path, ArtifactKind.pub) =
          some (Blob.pubPEM kk)) →
      l.foldl (keyStep false true rnd) st = st := by
  intro l
  induction l with
  | nil => intro st _ _; rfl
  | cons t rest ih =>
    intro st herr hall
    obtain ⟨kk, hk, hp⟩ := hall t (List.mem_cons_self t rest)
    rw [List.foldl_cons, keyStep_kept rnd st t kk herr hk hp]
    exact ih st herr (fun t2 ht2 => hall t2 (List.mem_cons_of_mem t ht2))

/-- Two consecutive engine executions (certificates then keys, overwrite
enabled, force-regeneration disabled) against the same descriptor list,
the second starting from the storage the first produced. -/
def runTwice (tpls : List KubeCertTemplate) (caMap : List (String × Nat))
    (rnd rnd2 : Nat → Nat) (descs : List KubeCert)
    (ktpls : List KubeKeyTemplate) (store0 : Storage) :
    (EngineSt × KeySt) × (EngineSt × KeySt) :=
  let r1 := fullRun tpls caMap rnd descs ktpls store0
  (r1, fullRun tpls caMap rnd2 descs ktpls r1.2.store)

/-- **C1** (amended): idempotence of reconciliation holds for every
well-formed rendered descriptor list (distinct artifact paths, authority
templates resolved strictly earlier, node-scoped SANs only on leaves),
key-template paths disjoint from certificate paths, and any starting
storage whose authority-path artifacts — if any are present — form
CA-capable matching pairs: the first full run (certificates then keys)
completes without abort, and a second full run against the same
descriptors and the storage the first run produced performs no writes,
reports `changed` = false in both engines, and returns the storage
byte-identical.  (The original claim is refuted without the distinct-path
proviso: see the counterexample, where one node name in two roles with
different extra SANs makes two descriptors share a path, and every run
rewrites it.) -/
theorem C1_second_run_is_noop (tpls : List KubeCertTemplate)
    (caMap : List (String × Nat)) (rnd rnd2 : Nat → Nat)
    (descs : List KubeCert) (ktpls : List KubeKeyTemplate) (store0 : Storage)
    (r1 r2 : EngineSt × KeySt)
    (hwf : DescsWfB tpls caMap descs = true)
    (hkwf : keysWfB descs ktpls = true)
    (hauth : authStoreOkB tpls descs store0 = true)
    (hr1 : fullRun tpls caMap rnd descs ktpls store0 = r1)
    (hr2 : fullRun tpls caMap rnd2 descs ktpls r1.2.store = r2) :
    r1.1.err = none ∧ r1.2.err = none ∧ r2.1.err = none ∧ r2.2.err = none ∧
      r2.1.changed = false ∧ r2.2.changed = false ∧
      r2.1.writes = [] ∧ r2.2.writes = [] ∧
      r2.1.store = r1.2.store ∧ r2.2.store = r1.2.store ∧
      (runTwice tpls caMap rnd rnd2 descs ktpls store0) = (r1, r2) := by
  subst hr2
  subst hr1
  have hkwf2 := hkwf
  unfold keysWfB at hkwf2
  simp only [Bool.and_eq_true, decide_eq_true_eq, List.all_eq_true,
    bne_iff_ne] at hkwf2
  obtain ⟨hknodup, hdisj⟩ := hkwf2
  obtain ⟨herr1, hmap1, hok1, hq1, hframe1⟩ :=
    runCerts_post tpls caMap rnd descs store0 hwf hauth
  rw [List.take_length] at hmap1
  have hfull1 : fullRun tpls caMap rnd descs ktpls store0 =
      (runCerts false true tpls caMap rnd descs store0,
        runKeys false true rnd ktpls
          (runCerts false true tpls caMap rnd descs store0).store
          (runCerts false true tpls caMap rnd descs store0).ctr) := by
    unfold fullRun
    simp only [herr1, Option.isSome_none, Bool.false_eq_true, if_false]
  have hkinit : KeyRunInv (runCerts false true tpls caMap rnd descs store0).store
      ktpls 0 ⟨(runCerts false true tpls caMap rnd descs store0).store, false, [],
        (runCerts false true tpls caMap rnd descs store0).ctr, none⟩ := by
    refine ⟨rfl, ?_, ?_⟩
    · intro t ht
      cases ht
    · intro p hp
      rfl
  have hrunkeys : runKeys false true rnd ktpls
      (runCerts false true tpls caMap rnd descs store0).store
      (runCerts false true tpls caMap rnd descs store0).ctr =
      ktpls.foldl (keyStep false true rnd)
        ⟨(runCerts false true tpls caMap rnd descs store0).store, false, [],
          (runCerts false true tpls caMap rnd descs store0).ctr, none⟩ := rfl
  have hkrun := keyRun1_aux rnd
    (runCerts false true tpls caMap rnd descs store0).store ktpls hknodup ktpls 0 _
    rfl hkinit
  rw [← hrunkeys] at hkrun
  obtain ⟨herrK, hpairsK, hframeK⟩ := hkrun
  rw [List.take_length] at hpairsK
  rw [List.take_length] at hframeK
  have hcertpaths : ∀ e ∈ (runCerts false true tpls caMap rnd descs store0).done,
      ∀ kind, storeGet (runKeys false true rnd ktpls
          (runCerts false true tpls caMap rnd descs store0).store
          (runCerts false true tpls caMap rnd descs store0).ctr).store
        (e.desc.readPath, kind) =
      storeGet (runCerts false true tpls caMap rnd descs store0).store
        (e.desc.readPath, kind) := by
    intro e he kind
    apply hframeK
    intro t ht
    have hde : e.desc ∈ descs := by
      rw [← hmap1]
      exact List.mem_map_of_mem _ he
    exact hdisj t ht e.desc hde
  have hok2 : ∀ e ∈ (runCerts false true tpls caMap rnd descs store0).done,
      EntryOk tpls caMap (runCerts false true tpls caMap rnd descs store0).done
        (runKeys false true rnd ktpls
          (runCerts false true tpls caMap rnd descs store0).store
          (runCerts false true tpls caMap rnd descs store0).ctr).store e := by
    intro e he
    obtain ⟨hc, hk, hv⟩ := hok1 e he
    refine ⟨?_, ?_, hv⟩
    · rw [hcertpaths e he ArtifactKind.crt]
      exact hc
    · rw [hcertpaths e he ArtifactKind.key]
      exact hk
  have hr2c : runCerts false true tpls caMap rnd2 descs
      (runKeys false true rnd ktpls
        (runCerts false true tpls caMap rnd descs store0).store
        (runCerts false true tpls caMap rnd descs store0).ctr).store =
      ⟨(runCerts false true tpls caMap rnd descs store0).done,
        (runKeys false true rnd ktpls
          (runCerts false true tpls caMap rnd descs store0).store
          (runCerts false true tpls caMap rnd descs store0).ctr).store,
        false, [], 0, none⟩ := by
    unfold runCerts
    exact run2_aux tpls caMap rnd2 descs
      (runCerts false true tpls caMap rnd descs store0).done
      (runKeys false true rnd ktpls
        (runCerts false true tpls caMap rnd descs store0).store
        (runCerts false true tpls caMap rnd descs store0).ctr).store
      hwf hmap1 hok2 descs 0 rfl
  have hr2k : runKeys false true rnd2 ktpls
      (runKeys false true rnd ktpls
        (runCerts false true tpls caMap rnd descs store0).store
        (runCerts false true tpls caMap rnd descs store0).ctr).store 0 =
      ⟨(runKeys false true rnd ktpls
          (runCerts false true tpls caMap rnd descs store0).store
          (runCerts false true tpls caMap rnd descs store0).ctr).store,
        false, [], 0, none⟩ := by
    unfold runKeys
    exact keyRun2_aux rnd2 ktpls
      ⟨(runKeys false true rnd ktpls
          (runCerts false true tpls caMap rnd descs store0).store
          (runCerts false true tpls caMap rnd descs store0).ctr).store,
        false, [], 0, none⟩ rfl hpairsK
  have hfull2 : fullRun tpls caMap rnd2 descs ktpls
      (fullRun tpls caMap rnd descs ktpls store0).2.store =
      (⟨(runCerts false true tpls caMap rnd descs store0).done,
        (runKeys false true rnd ktpls
          (runCerts false true tpls caMap rnd descs store0).store
          (runCerts false true tpls caMap rnd descs store0).ctr).store,
        false, [], 0, none⟩,
       ⟨(runKeys false true rnd ktpls
          (runCerts false true tpls caMap rnd descs store0).store
          (runCerts false true tpls caMap rnd descs store0).ctr).store,
        false, [], 0, none⟩) := by
    rw [hfull1]
    unfold fullRun
    simp only [hr2c, Option.isSome_none, Bool.false_eq_true, if_false]
    rw [hr2k]
  refine ⟨?_, ?_, ?_, ?_, ?_, ?_, ?_, ?_, ?_, ?_, ?_⟩
  · rw [hfull1]
    exact herr1
  · rw [hfull1]
    exact herrK
  · rw [hfull2]
  · rw [hfull2]
  · rw [hfull2]
  · rw [hfull2]
  · rw [hfull2]
  · rw [hfull2]
  · rw [hfull2, hfull1]
  · rw [hfull2, hfull1]
  · rfl

/-- The topology parsed from `--apisans kapi --masters n/10.0.0.1
--workers n/10.9.9.9` with no etcd argument: one node name `n` carried by
both the control-plane and the worker role, with different extra SANs. -/
def C1hosts : KubeHostsAll :=
  ⟨[("kapi", [])], [("n", ["10.0.0.1"])], [("n", ["10.9.9.9"])],
    [("n", ["10.0.0.1"])]⟩

/-- The user-extended catalog of the `kubecerts` command with no users. -/
def C1catalog : List KubeCertTemplate :=
  kubeCertTemplates ++ getUsersTemplates ""

/-- The rendered descriptors and authority map for `C1hosts`. -/
def C1render : RenderSt := RenderCertTemplates C1catalog C1hosts

/-- First full run (certificates then keys) on empty storage. -/
def C1run1 : EngineSt × KeySt :=
  fullRun C1catalog C1render.caMap (fun n => n) C1render.all KubeKeyTemplates []

/-- Second full run against the same topology on the storage the first
run produced. -/
def C1run2 : EngineSt × KeySt :=
  fullRun C1catalog C1render.caMap (fun n => n + 100) C1render.all
    KubeKeyTemplates C1run1.2.store

/-- **C1** (counterexample to the claim as stated): the topology `C1hosts`
is a legitimate resolver output (first conjunct), the first run completes
(no abort in either engine), yet the second run against the very storage
the first produced regenerates and writes again and reports
`changed` = true — the node `n` sits in both the masters and the workers
role with different extra SANs, so the two kubelet serving descriptors
share one storage path and each run overwrites it with the other's
identity. -/
theorem C1_counterexample :
    getKubehosts (some "kapi") (some "n/10.0.0.1") (some "n/10.9.9.9") none =
      Except.ok C1hosts ∧
    C1run1.1.err = none ∧ C1run1.2.err = none ∧
    C1run2.1.changed = true ∧ C1run2.1.writes ≠ [] := by
  refine ⟨by rfl, by decide, by decide, by decide, by decide⟩

/-- A one-authority catalog for exercising the amended idempotence
theorem on a concrete instance. -/
def C1tpls : List KubeCertTemplate :=
  [{ path := "/pki/ca", commonnameTemplate := "ca" }]

/-- The descriptor the Identity Materializer renders from `C1tpls` (no
node roles, so a single global descriptor). -/
def C1descs : List KubeCert :=
  [{ node := "", commonName := "ca", organisation := [], sans := [],
     templateIdx := 0, readPath := "global/pki/ca",
     writePath := "global/pki/ca" }]

/-- First full run of the concrete instance on empty storage. -/
def C1r1 : EngineSt × KeySt :=
  fullRun C1tpls [("/pki/ca", 0)] (fun n => n) C1descs KubeKeyTemplates []

/-- Second full run of the concrete instance on the first run's storage. -/
def C1r2 : EngineSt × KeySt :=
  fullRun C1tpls [("/pki/ca", 0)] (fun n => n + 1) C1descs KubeKeyTemplates
    C1r1.2.store

/-- Closed witness for `C1_second_run_is_noop` at the concrete instance. -/
theorem C1_witness :
    (DescsWfB C1tpls [("/pki/ca", 0)] C1descs = true ∧
      keysWfB C1descs KubeKeyTemplates = true ∧
      authStoreOkB C1tpls C1descs [] = true) ∧
    (C1r1.1.err = none ∧ C1r1.2.err = none ∧
      C1r2.1.err = none ∧ C1r2.2.err = none ∧
      C1r2.1.changed = false ∧ C1r2.2.changed = false ∧
      C1r2.1.writes = [] ∧ C1r2.2.writes = [] ∧
      C1r2.1.store = C1r1.2.store ∧ C1r2.2.store = C1r1.2.store ∧
      runTwice C1tpls [("/pki/ca", 0)] (fun n => n) (fun n => n + 1) C1descs
        KubeKeyTemplates [] = (C1r1, C1r2)) :=
  ⟨⟨by decide, by decide, by decide⟩,
    C1_second_run_is_noop C1tpls [("/pki/ca", 0)] (fun n => n) (fun n => n + 1)
      C1descs KubeKeyTemplates [] C1r1 C1r2 (by decide) (by decide) (by decide)
      rfl rfl⟩

end GenKubeSsl
